import Mathlib

/-!
Verification of the pcm-loader audio decoding library.

The Rust source is shallowly embedded: sample values computed by the `f32`
and `f64` conversion functions in `src/convert.rs` are modelled as exact
rationals (`ℚ`), machine integers (`usize`, `u32`, …) as `Nat`/`Int`,
fallible operations as `Option`/`Except`, and panics (`assert!`,
out-of-bounds slicing, `unwrap`) as `none`.  Buffers that Rust mutates in
place are threaded explicitly as lists.
-/

namespace PcmLoader

/-- Three raw bytes representing a 24-bit sample (`[u8; 3]` in the source).
Each field is a byte value `< 256`. -/
structure Bytes3 where
  b0 : Nat
  b1 : Nat
  b2 : Nat
deriving DecidableEq, Repr

/-! ## convert.rs — sample conversion library (exact-arithmetic model) -/

/-- `pcm_u8_to_f32`: `((f32::from(s)) * (2.0 / u8::MAX as f32)) - 1.0`. -/
def pcm_u8_to_f32 (s : Nat) : ℚ := s * (2 / 255) - 1

/-- `pcm_u16_to_f32`: `((f32::from(s)) * (2.0 / u16::MAX as f32)) - 1.0`. -/
def pcm_u16_to_f32 (s : Nat) : ℚ := s * (2 / 65535) - 1

/-- `u32::from_le_bytes` on four byte values. -/
def u32_from_le_bytes (b0 b1 b2 b3 : Nat) : Nat :=
  b0 + 256 * b1 + 65536 * b2 + 16777216 * b3

/-- `i32::from_le_bytes` on four byte values: two's-complement reading. -/
def i32_from_le_bytes (b0 b1 b2 b3 : Nat) : Int :=
  let u := u32_from_le_bytes b0 b1 b2 b3
  if u < 2 ^ 31 then (u : Int) else (u : Int) - 2 ^ 32

/-- `pcm_u24_to_f32_le`: pads `[s0, s1, s2, 0]`, reads a `u32`, then
`((f64::from(val) * (2.0 / 16_777_215.0)) - 1.0) as f32`. -/
def pcm_u24_to_f32_le (s : Bytes3) : ℚ :=
  let val := u32_from_le_bytes s.b0 s.b1 s.b2 0
  val * (2 / 16777215) - 1

/-- `pcm_u24_to_f32_ne` on a little-endian platform. -/
def pcm_u24_to_f32_ne (s : Bytes3) : ℚ := pcm_u24_to_f32_le s

/-- `pcm_u32_to_f32`: `((f64::from(s) * (2.0 / u32::MAX as f64)) - 1.0) as f32`. -/
def pcm_u32_to_f32 (s : Nat) : ℚ := s * (2 / 4294967295) - 1

/-- `pcm_i8_to_f32`: `f32::from(s) / i8::MAX as f32`. -/
def pcm_i8_to_f32 (s : Int) : ℚ := (s : ℚ) / 127

/-- `pcm_i16_to_f32`: `f32::from(s) / i16::MAX as f32`. -/
def pcm_i16_to_f32 (s : Int) : ℚ := (s : ℚ) / 32767

/-- `pcm_i24_to_f32_le`: pads `[s0, s1, s2, 0]` (no sign extension),
reads an `i32`, then `(f64::from(val) / 8_388_607.0) as f32`. -/
def pcm_i24_to_f32_le (s : Bytes3) : ℚ :=
  let val := i32_from_le_bytes s.b0 s.b1 s.b2 0
  (val : ℚ) / 8388607

/-- `pcm_i24_to_f32_ne` on a little-endian platform. -/
def pcm_i24_to_f32_ne (s : Bytes3) : ℚ := pcm_i24_to_f32_le s

/-- `pcm_i32_to_f32`: `(f64::from(s) / i32::MAX as f64) as f32`. -/
def pcm_i32_to_f32 (s : Int) : ℚ := (s : ℚ) / 2147483647

/-- The numeric value of three bytes interpreted as a signed 24-bit
two's-complement sample (the "sample value" of an `i24`).  This is the
reference semantics the conversion is documented against, not code from
the repository. -/
def i24_sample_value (s : Bytes3) : Int :=
  let u := s.b0 + 256 * s.b1 + 65536 * s.b2
  if u < 2 ^ 23 then (u : Int) else (u : Int) - 2 ^ 24

/-! ## resource.rs — the `DecodedAudio` random-access resource -/

/-- `DecodedAudioType`: de-interleaved per-channel sample storage, one
variant per native encoding (`U32`/`S32` are converted to `F32` on decode
and have no variant here, as in the source). -/
inductive DecodedAudioType where
  | U8 (d : List (List Nat))
  | U16 (d : List (List Nat))
  | U24 (d : List (List Bytes3))
  | S8 (d : List (List Int))
  | S16 (d : List (List Int))
  | S24 (d : List (List Bytes3))
  | F32 (d : List (List ℚ))
  | F64 (d : List (List ℚ))
deriving DecidableEq, Repr

/-- The channel-shape computation shared by every arm of
`DecodedAudio::new`: `let len = b[0].len()` (panics when `b` is empty,
modelled as `none`), the `assert_eq!(ch.len(), len)` loop over the
remaining channels (assertion failure modelled as `none`), and the result
`(b.len(), len)`. -/
def checkChannels {α : Type} : List (List α) → Option (Nat × Nat)
  | [] => none
  | c0 :: rest =>
    if rest.all (fun ch => ch.length = c0.length) then some (rest.length + 1, c0.length)
    else none

/-- `DecodedAudio`: the immutable audio resource with cached channel and
frame counts. -/
structure DecodedAudio where
  resource_type : DecodedAudioType
  sample_rate : Nat
  channels : Nat
  frames : Nat
deriving DecidableEq, Repr

/-- `DecodedAudio::new`: derives `(channels, frames)` from the channel
data, asserting all channels have equal length. -/
def DecodedAudio.new (t : DecodedAudioType) (sr : Nat) : Option DecodedAudio :=
  match t with
  | .U8 d => (checkChannels d).map fun p => ⟨.U8 d, sr, p.1, p.2⟩
  | .U16 d => (checkChannels d).map fun p => ⟨.U16 d, sr, p.1, p.2⟩
  | .U24 d => (checkChannels d).map fun p => ⟨.U24 d, sr, p.1, p.2⟩
  | .S8 d => (checkChannels d).map fun p => ⟨.S8 d, sr, p.1, p.2⟩
  | .S16 d => (checkChannels d).map fun p => ⟨.S16 d, sr, p.1, p.2⟩
  | .S24 d => (checkChannels d).map fun p => ⟨.S24 d, sr, p.1, p.2⟩
  | .F32 d => (checkChannels d).map fun p => ⟨.F32 d, sr, p.1, p.2⟩
  | .F64 d => (checkChannels d).map fun p => ⟨.F64 d, sr, p.1, p.2⟩

/-- The per-variant sample read `convert::pcm_*_to_f32(pcm[channel][i])`
performed by the arms of the `match` in `fill_channel` / `fill_stereo`
(the `F32` arm copies, the `F64` arm casts with `as f32`). -/
def DecodedAudioType.sampleAt : DecodedAudioType → Nat → Nat → ℚ
  | .U8 d, ch, i => pcm_u8_to_f32 ((d.getD ch []).getD i 0)
  | .U16 d, ch, i => pcm_u16_to_f32 ((d.getD ch []).getD i 0)
  | .U24 d, ch, i => pcm_u24_to_f32_ne ((d.getD ch []).getD i ⟨0, 0, 0⟩)
  | .S8 d, ch, i => pcm_i8_to_f32 ((d.getD ch []).getD i 0)
  | .S16 d, ch, i => pcm_i16_to_f32 ((d.getD ch []).getD i 0)
  | .S24 d, ch, i => pcm_i24_to_f32_ne ((d.getD ch []).getD i ⟨0, 0, 0⟩)
  | .F32 d, ch, i => (d.getD ch []).getD i 0
  | .F64 d, ch, i => (d.getD ch []).getD i 0

/-- `DecodedAudio::fill_channel`.  The mutable output slice `buf` is
threaded explicitly: the result is `(Ok(count) or Err, final contents)`.
The 8-way `match` writing `buf_part[i] = convert(pcm_part[i])` is
factored through `DecodedAudioType.sampleAt`. -/
def DecodedAudio.fill_channel (a : DecodedAudio) (channel frame : Nat) (buf : List ℚ) :
    Option Nat × List ℚ :=
  if channel ≥ a.channels then (none, buf)
  else if frame ≥ a.frames then (some 0, List.replicate buf.length 0)
  else
    let fill_frames := if frame + buf.length > a.frames then a.frames - frame else buf.length
    let buf_part := (List.range fill_frames).map fun i => a.resource_type.sampleAt channel (frame + i)
    (some fill_frames, buf_part ++ List.replicate (buf.length - fill_frames) 0)

/-- `DecodedAudio::fill_stereo`.  Both output slices are threaded
explicitly; `none` models the panics (`unwrap`, `copy_from_slice` length
mismatch).  In the two-or-more-channel in-bounds case only the first
`fill_frames` positions are written, so the tails of the buffers keep
their old contents, exactly as in the source. -/
def DecodedAudio.fill_stereo (a : DecodedAudio) (frame : Nat) (buf_l buf_r : List ℚ) :
    Option (Nat × List ℚ × List ℚ) :=
  let buf_len := min buf_l.length buf_r.length
  if a.channels = 1 then
    match a.fill_channel 0 frame buf_l with
    | (some fill_frames, out_l) =>
      if buf_r.length = out_l.length then some (fill_frames, out_l, out_l) else none
    | (none, _) => none
  else if frame ≥ a.frames then
    some (0, List.replicate buf_l.length 0, List.replicate buf_r.length 0)
  else if frame + buf_len > a.frames then
    let fill_frames := a.frames - frame
    some (fill_frames,
      ((List.range fill_frames).map fun i => a.resource_type.sampleAt 0 (frame + i)) ++
        List.replicate (buf_l.length - fill_frames) 0,
      ((List.range fill_frames).map fun i => a.resource_type.sampleAt 1 (frame + i)) ++
        List.replicate (buf_r.length - fill_frames) 0)
  else
    some (buf_len,
      ((List.range buf_len).map fun i => a.resource_type.sampleAt 0 (frame + i)) ++
        buf_l.drop buf_len,
      ((List.range buf_len).map fun i => a.resource_type.sampleAt 1 (frame + i)) ++
        buf_r.drop buf_len)

/-- `DecodedAudioF32`: all-float resource returned by the f32 and
resampled decode paths. -/
structure DecodedAudioF32 where
  data : List (List ℚ)
  sample_rate : Nat
deriving DecidableEq, Repr

/-- `DecodedAudioF32::new`: asserts all channels have equal length
(`data[0]` panics on an empty channel list, modelled as `none`). -/
def DecodedAudioF32.new (data : List (List ℚ)) (sr : Nat) : Option DecodedAudioF32 :=
  (checkChannels data).map fun _ => ⟨data, sr⟩

/-- `DecodedAudioF32::frames`: `data[0].len()`. -/
def DecodedAudioF32.frames (a : DecodedAudioF32) : Nat := (a.data.headD []).length

/-- `DecodedAudioF32::channels`. -/
def DecodedAudioF32.channels (a : DecodedAudioF32) : Nat := a.data.length

/-! ## decode.rs — error type and packet stream model

The symphonia demuxer/decoder is an external collaborator: the packet
stream is modelled as the list of packets `format.next_packet()` yields,
each carrying its track id and the outcome `decoder.decode(&packet)`
would produce for it. -/

/-- `LoadError` (the variants reachable from `decode.rs`/`lib.rs`). -/
inductive LoadErr where
  | noTrackFound
  | noChannelsFound
  | fileTooLarge (max_bytes : Nat)
  | couldNotCreateDecoder
  | errorWhileDecoding
  | unexpectedErrorWhileDecoding
  | errorWhileResampling
  | invalidResampler
deriving DecidableEq, Repr

instance {ε α : Type} [DecidableEq ε] [DecidableEq α] : DecidableEq (Except ε α) :=
  fun x y =>
    match x, y with
    | .ok a, .ok b =>
      if h : a = b then isTrue (by rw [h]) else isFalse (by intro hc; cases hc; exact h rfl)
    | .error a, .error b =>
      if h : a = b then isTrue (by rw [h]) else isFalse (by intro hc; cases hc; exact h rfl)
    | .ok _, .error _ => isFalse (by intro hc; cases hc)
    | .error _, .ok _ => isFalse (by intro hc; cases hc)

/-- A decoded packet buffer (`AudioBufferRef`), one variant per native
sample type symphonia can produce. -/
inductive PacketBuf where
  | U8 (d : List (List Nat))
  | U16 (d : List (List Nat))
  | U24 (d : List (List Bytes3))
  | U32 (d : List (List Nat))
  | S8 (d : List (List Int))
  | S16 (d : List (List Int))
  | S24 (d : List (List Bytes3))
  | S32 (d : List (List Int))
  | F32 (d : List (List ℚ))
  | F64 (d : List (List ℚ))
deriving DecidableEq, Repr

/-- Outcome of `decoder.decode(&packet)`: success,
`Error::DecodeError` (recoverable, logged and skipped), or any other
error (fatal, aborts the load). -/
inductive DecodeOutcome where
  | ok (buf : PacketBuf)
  | recoverable
  | fatal
deriving DecidableEq, Repr

/-- One demuxed packet for the native-bitdepth path. -/
structure Packet where
  track_id : Nat
  outcome : DecodeOutcome
deriving DecidableEq, Repr

/-- `d.chan(0).len()` of a decoded packet buffer. -/
def PacketBuf.chan0len : PacketBuf → Nat
  | .U8 d => (d.headD []).length
  | .U16 d => (d.headD []).length
  | .U24 d => (d.headD []).length
  | .U32 d => (d.headD []).length
  | .S8 d => (d.headD []).length
  | .S16 d => (d.headD []).length
  | .S24 d => (d.headD []).length
  | .S32 d => (d.headD []).length
  | .F32 d => (d.headD []).length
  | .F64 d => (d.headD []).length

/-- Bytes per sample used for the `max_frames` computation in each arm of
`decode_native_bitdepth` (`max_bytes / (bps * n_channels)`). -/
def PacketBuf.bps : PacketBuf → Nat
  | .U8 _ => 1
  | .U16 _ => 2
  | .U24 _ => 3
  | .U32 _ => 4
  | .S8 _ => 1
  | .S16 _ => 2
  | .S24 _ => 3
  | .S32 _ => 4
  | .F32 _ => 4
  | .F64 _ => 8

/-- The per-channel append loop shared by the `decode_*_packet` helpers:
`for i in 0..num_channels { decoded_channels[i].extend(f(packet.chan(i))) }`
(the accumulator has exactly `num_channels` channels). -/
def extendChannels {α β : Type} (f : α → β) (acc : List (List β)) (d : List (List α)) :
    List (List β) :=
  acc.mapIdx fun i ch => ch ++ (d.getD i []).map f

/-- `FirstPacketType`: the accumulator established by the first decoded
packet.  `U32`/`S32` accumulate as `f32` (converted on decode). -/
inductive NativeAcc where
  | U8 (d : List (List Nat))
  | U16 (d : List (List Nat))
  | U24 (d : List (List Bytes3))
  | U32 (d : List (List ℚ))
  | S8 (d : List (List Int))
  | S16 (d : List (List Int))
  | S24 (d : List (List Bytes3))
  | S32 (d : List (List ℚ))
  | F32 (d : List (List ℚ))
  | F64 (d : List (List ℚ))
deriving DecidableEq, Repr

/-- Allocate `n_channels` empty channel buffers and run the matching
`decode_*_packet` on the first packet. -/
def NativeAcc.ofFirst (buf : PacketBuf) (n_channels : Nat) : NativeAcc :=
  match buf with
  | .U8 d => .U8 (extendChannels id (List.replicate n_channels []) d)
  | .U16 d => .U16 (extendChannels id (List.replicate n_channels []) d)
  | .U24 d => .U24 (extendChannels id (List.replicate n_channels []) d)
  | .U32 d => .U32 (extendChannels pcm_u32_to_f32 (List.replicate n_channels []) d)
  | .S8 d => .S8 (extendChannels id (List.replicate n_channels []) d)
  | .S16 d => .S16 (extendChannels id (List.replicate n_channels []) d)
  | .S24 d => .S24 (extendChannels id (List.replicate n_channels []) d)
  | .S32 d => .S32 (extendChannels pcm_i32_to_f32 (List.replicate n_channels []) d)
  | .F32 d => .F32 (extendChannels id (List.replicate n_channels []) d)
  | .F64 d => .F64 (extendChannels id (List.replicate n_channels []) d)

/-- Append a later packet: the variant must match the first packet's
(`unexpected_format` otherwise, modelled as `none`). -/
def NativeAcc.append (acc : NativeAcc) (buf : PacketBuf) : Option NativeAcc :=
  match acc, buf with
  | .U8 a, .U8 d => some (.U8 (extendChannels id a d))
  | .U16 a, .U16 d => some (.U16 (extendChannels id a d))
  | .U24 a, .U24 d => some (.U24 (extendChannels id a d))
  | .U32 a, .U32 d => some (.U32 (extendChannels pcm_u32_to_f32 a d))
  | .S8 a, .S8 d => some (.S8 (extendChannels id a d))
  | .S16 a, .S16 d => some (.S16 (extendChannels id a d))
  | .S24 a, .S24 d => some (.S24 (extendChannels id a d))
  | .S32 a, .S32 d => some (.S32 (extendChannels pcm_i32_to_f32 a d))
  | .F32 a, .F32 d => some (.F32 (extendChannels id a d))
  | .F64 a, .F64 d => some (.F64 (extendChannels id a d))
  | _, _ => none

/-- The `DecodedAudioType` the accumulator is wrapped into at the end
(`U32`/`S32` were stored as `F32`). -/
def NativeAcc.toType : NativeAcc → DecodedAudioType
  | .U8 d => .U8 d
  | .U16 d => .U16 d
  | .U24 d => .U24 d
  | .U32 d => .F32 d
  | .S8 d => .S8 d
  | .S16 d => .S16 d
  | .S24 d => .S24 d
  | .S32 d => .F32 d
  | .F32 d => .F32 d
  | .F64 d => .F64 d

/-- Bytes per sample of the accumulator's storage. -/
def NativeAcc.bps : NativeAcc → Nat
  | .U8 _ => 1
  | .U16 _ => 2
  | .U24 _ => 3
  | .U32 _ => 4
  | .S8 _ => 1
  | .S16 _ => 2
  | .S24 _ => 3
  | .S32 _ => 4
  | .F32 _ => 4
  | .F64 _ => 8

/-- Length of channel 0 of the accumulator. -/
def NativeAcc.chan0len : NativeAcc → Nat
  | .U8 d => (d.headD []).length
  | .U16 d => (d.headD []).length
  | .U24 d => (d.headD []).length
  | .U32 d => (d.headD []).length
  | .S8 d => (d.headD []).length
  | .S16 d => (d.headD []).length
  | .S24 d => (d.headD []).length
  | .S32 d => (d.headD []).length
  | .F32 d => (d.headD []).length
  | .F64 d => (d.headD []).length

/-- The `check_total_frames` closure: add the packet's frame count to
the running total and fail with `FileTooLarge` when it exceeds
`max_frames`. -/
def check_total_frames (max_bytes total_frames max_frames packet_len : Nat) :
    Except LoadErr Nat :=
  if total_frames + packet_len > max_frames then .error (.fileTooLarge max_bytes)
  else .ok (total_frames + packet_len)

/-- The first loop of `decode_native_bitdepth`: pull packets until the
first successful decode, skipping foreign-track packets and recoverable
decode errors.  On success, compute `max_frames` from the packet's
native bytes-per-sample, run the declared-frame-count (or running-total)
budget check, and accumulate the first packet.  The second component
counts the `decoder.decode` calls made. -/
def firstPacketLoop (track_id n_channels : Nat) (file_frames : Option Nat) (max_bytes : Nat) :
    List Packet → Except LoadErr (Option (NativeAcc × Nat × Nat × List Packet)) × Nat
  | [] => (.ok none, 0)
  | p :: rest =>
    if p.track_id ≠ track_id then firstPacketLoop track_id n_channels file_frames max_bytes rest
    else
      match p.outcome with
      | .ok buf =>
        let max_frames := max_bytes / (buf.bps * n_channels)
        match file_frames with
        | some f =>
          if f > max_frames then (.error (.fileTooLarge max_bytes), 1)
          else (.ok (some (NativeAcc.ofFirst buf n_channels, max_frames, 0, rest)), 1)
        | none =>
          match check_total_frames max_bytes 0 max_frames buf.chan0len with
          | .error e => (.error e, 1)
          | .ok total =>
            (.ok (some (NativeAcc.ofFirst buf n_channels, max_frames, total, rest)), 1)
      | .recoverable =>
        let r := firstPacketLoop track_id n_channels file_frames max_bytes rest
        (r.1, r.2 + 1)
      | .fatal => (.error .errorWhileDecoding, 1)

/-- The per-variant continuation loop of `decode_native_bitdepth`: every
further packet must decode to the same variant; the running budget check
runs only when the file declared no frame count (in the source the check
precedes the append; the observable result is identical). -/
def contPacketLoop (track_id : Nat) (file_frames : Option Nat) (max_bytes max_frames : Nat) :
    NativeAcc → Nat → List Packet → Except LoadErr NativeAcc × Nat
  | acc, _, [] => (.ok acc, 0)
  | acc, total, p :: rest =>
    if p.track_id ≠ track_id then
      contPacketLoop track_id file_frames max_bytes max_frames acc total rest
    else
      match p.outcome with
      | .ok buf =>
        match acc.append buf with
        | none => (.error .unexpectedErrorWhileDecoding, 1)
        | some acc' =>
          match file_frames with
          | some _ =>
            let r := contPacketLoop track_id file_frames max_bytes max_frames acc' total rest
            (r.1, r.2 + 1)
          | none =>
            match check_total_frames max_bytes total max_frames buf.chan0len with
            | .error e => (.error e, 1)
            | .ok total' =>
              let r := contPacketLoop track_id file_frames max_bytes max_frames acc' total' rest
              (r.1, r.2 + 1)
      | .recoverable =>
        let r := contPacketLoop track_id file_frames max_bytes max_frames acc total rest
        (r.1, r.2 + 1)
      | .fatal => (.error .errorWhileDecoding, 1)

/-- `decode_native_bitdepth`.  The track id and declared frame count are
the probed track's data; panics (`assert_ne!(n_channels, 0)`, the
equal-length assertion in `DecodedAudio::new`) are `none`.  The second
component counts `decoder.decode` calls. -/
def decode_native_bitdepth (stream : List Packet) (track_id n_channels : Nat)
    (file_frames : Option Nat) (sample_rate max_bytes : Nat) :
    Option (Except LoadErr DecodedAudio) × Nat :=
  if n_channels = 0 then (none, 0)
  else
    match firstPacketLoop track_id n_channels file_frames max_bytes stream with
    | (.error e, k) => (some (.error e), k)
    | (.ok none, k) => (some (.error .unexpectedErrorWhileDecoding), k)
    | (.ok (some (acc, max_frames, total, rest)), k) =>
      match contPacketLoop track_id file_frames max_bytes max_frames acc total rest with
      | (.error e, m) => (some (.error e), k + m)
      | (.ok accF, m) => ((DecodedAudio.new accF.toType sample_rate).map .ok, k + m)

/-! ## decode.rs — the f32 path

On this path every successful decode is converted to `f32` planes by
symphonia (`decoded.convert`), so a packet's payload is modelled directly
as the converted per-channel planes. -/

/-- Outcome of decoding one packet on the f32/resampled paths. -/
inductive F32Outcome where
  | ok (planes : List (List ℚ))
  | recoverable
  | fatal
deriving DecidableEq, Repr

/-- One demuxed packet for the f32/resampled paths. -/
structure F32Packet where
  track_id : Nat
  outcome : F32Outcome
deriving DecidableEq, Repr

/-- The packet loop of `decode_f32`: append each converted packet's
planes to the per-channel buffers (`final_buf.iter_mut().zip(planes)`),
then, when no frame count was declared, fail if the accumulated length
exceeds `max_frames`.  The second component counts `decoder.decode`
calls. -/
def decodeF32Loop (track_id max_frames : Nat) (file_frames : Option Nat) (max_bytes : Nat) :
    List F32Packet → List (List ℚ) → Except LoadErr (List (List ℚ)) × Nat
  | [], final => (.ok final, 0)
  | p :: rest, final =>
    if p.track_id ≠ track_id then decodeF32Loop track_id max_frames file_frames max_bytes rest final
    else
      match p.outcome with
      | .ok planes =>
        let final' := final.mapIdx fun i ch => ch ++ planes.getD i []
        if file_frames = none ∧ (final'.headD []).length > max_frames then
          (.error (.fileTooLarge max_bytes), 1)
        else
          let r := decodeF32Loop track_id max_frames file_frames max_bytes rest final'
          (r.1, r.2 + 1)
      | .recoverable =>
        let r := decodeF32Loop track_id max_frames file_frames max_bytes rest final
        (r.1, r.2 + 1)
      | .fatal => (.error .errorWhileDecoding, 1)

/-- `decode_f32`: the upfront declared-frame-count check against
`max_bytes / (4 * n_channels)`, then the packet loop, then
`DecodedAudioF32::new`.  No check that any packet was decoded: an empty
stream yields an empty resource. -/
def decode_f32 (stream : List F32Packet) (track_id n_channels : Nat)
    (file_frames : Option Nat) (sample_rate max_bytes : Nat) :
    Option (Except LoadErr DecodedAudioF32) × Nat :=
  if n_channels = 0 then (none, 0)
  else
    let max_frames := max_bytes / (4 * n_channels)
    if file_frames.any (fun f => f > max_frames) then
      (some (.error (.fileTooLarge max_bytes)), 0)
    else
      match decodeF32Loop track_id max_frames file_frames max_bytes stream
          (List.replicate n_channels []) with
      | (.error e, k) => (some (.error e), k)
      | (.ok final, k) => ((DecodedAudioF32.new final sample_rate).map .ok, k)

/-! ## decode.rs — the resampled path

The external conversion engine (rubato) is modelled as a deterministic
state machine with the interface `decode_resampled` consumes:
`reset`, `input_frames_max`, `output_frames_max`, `output_delay`,
`input_frames_next`, and `process_into_buffer` (which overwrites the
output staging buffer and reports the produced frame count; `none`
models a `ResampleError`). -/

/-- Model of a rubato resampler instance. -/
structure ResamplerModel (σ : Type) where
  resetState : σ
  input_frames_max : Nat
  output_frames_max : Nat
  output_delay : Nat
  input_frames_next : σ → Nat
  process : σ → List (List ℚ) → Option (σ × Nat × List (List ℚ))

/-- Overwrite `ch[start..start + vals.len()]` with `vals`. -/
def setSlice (ch : List ℚ) (start : Nat) (vals : List ℚ) : List ℚ :=
  ch.take start ++ vals ++ ch.drop (start + vals.length)

/-- `Vec::resize(n, 0.0)`: truncate to `n` or pad with zeros up to `n`. -/
def resizeTo (ch : List ℚ) (n : Nat) : List ℚ :=
  ch.take n ++ List.replicate (n - ch.length) 0

/-- The transient state of one resample operation. -/
structure RState (σ : Type) where
  rs : σ
  in_buf : List (List ℚ)
  out_buf : List (List ℚ)
  in_len : Nat
  desired : Nat
  delay_left : Nat
  final_buf : List (List ℚ)
  total_in : Nat

/-- The `resample` closure: one `process_into_buffer` call, delay
compensation (`res_ch[delay_frames_left..output_frames]` is emitted once
the running delay counter is passed), then refresh
`input_frames_next` and clear the staging fill level. -/
def resampleStep {σ : Type} (R : ResamplerModel σ) (st : RState σ) :
    Except LoadErr (RState σ) :=
  match R.process st.rs st.in_buf with
  | none => .error .errorWhileResampling
  | some (rs', output_frames, out') =>
    if st.delay_left ≥ output_frames then
      .ok { st with
            rs := rs'
            out_buf := out'
            delay_left := st.delay_left - output_frames
            desired := R.input_frames_next rs'
            in_len := 0 }
    else
      .ok { st with
            rs := rs'
            out_buf := out'
            final_buf := st.final_buf.mapIdx fun i ch =>
              ch ++ (((out'.getD i []).take output_frames).drop st.delay_left)
            delay_left := 0
            desired := R.input_frames_next rs'
            in_len := 0 }

/-- The inner copy loop of a packet: copy decoded frames into the input
staging buffer, invoking the engine whenever the staging buffer reaches
the required chunk size.  `fuel` bounds the iterations (`none` models
non-termination). -/
def copyLoop {σ : Type} (R : ResamplerModel σ) (planes : List (List ℚ))
    (decoded_frames : Nat) :
    Nat → Nat → RState σ → Option (Except LoadErr (RState σ))
  | 0, _, _ => none
  | fuel + 1, total_copied, st =>
    if total_copied < decoded_frames then
      let copy_frames := min (decoded_frames - total_copied) (st.desired - st.in_len)
      let st1 := { st with
        in_buf := st.in_buf.mapIdx fun i ch =>
          setSlice ch st.in_len (((planes.getD i []).drop total_copied).take copy_frames),
        in_len := st.in_len + copy_frames }
      if st1.in_len = st1.desired then
        match resampleStep R st1 with
        | .error e => some (.error e)
        | .ok st2 => copyLoop R planes decoded_frames fuel (total_copied + copy_frames) st2
      else copyLoop R planes decoded_frames fuel (total_copied + copy_frames) st1
    else some (.ok st)

/-- The packet loop of `decode_resampled`: feed each converted packet
through the copy loop, run the emitted-output budget check when no frame
count was declared, and accumulate `total_in_frames`. -/
def resampledPacketLoop {σ : Type} (R : ResamplerModel σ) (track_id max_frames : Nat)
    (file_frames : Option Nat) (max_bytes fuel : Nat) :
    List F32Packet → RState σ → Option (Except LoadErr (RState σ))
  | [], st => some (.ok st)
  | p :: rest, st =>
    if p.track_id ≠ track_id then
      resampledPacketLoop R track_id max_frames file_frames max_bytes fuel rest st
    else
      match p.outcome with
      | .ok planes =>
        let decoded_frames := (planes.headD []).length
        match copyLoop R planes decoded_frames fuel 0 st with
        | none => none
        | some (.error e) => some (.error e)
        | some (.ok st1) =>
          if file_frames = none ∧ (st1.final_buf.headD []).length > max_frames then
            some (.error (.fileTooLarge max_bytes))
          else
            resampledPacketLoop R track_id max_frames file_frames max_bytes fuel rest
              { st1 with total_in := st1.total_in + decoded_frames }
      | .recoverable =>
        resampledPacketLoop R track_id max_frames file_frames max_bytes fuel rest st
      | .fatal => some (.error .errorWhileDecoding)

/-- The tail drain loop: keep feeding all-zero chunks until the
accumulated output reaches `total_frames` (`fuel` bounds iterations). -/
def drainLoop {σ : Type} (R : ResamplerModel σ) (total_frames : Nat) :
    Nat → RState σ → Option (Except LoadErr (RState σ))
  | 0, _ => none
  | fuel + 1, st =>
    if (st.final_buf.headD []).length < total_frames then
      let st0 := { st with
        in_buf := st.in_buf.map fun ch => setSlice ch 0 (List.replicate st.desired 0) }
      match resampleStep R st0 with
      | .error e => some (.error e)
      | .ok st1 => drainLoop R total_frames fuel st1
    else some (.ok st)

/-- Exact ceiling division on naturals; models
`(a as f64 / b as f64).ceil() as usize` for positive `b`. -/
def natCeilDiv (a b : Nat) : Nat := (a + b - 1) / b

/-- `decode_resampled`.  The engine is reset first; the upfront
declared-frame-count check uses `max_bytes / (4 * n_channels)`; at
end-of-stream a partial staging chunk is zero-padded and flushed, the
engine is drained to the exact target length
`ceil(total_in_frames * target_rate / source_rate)`, and every channel
is resized to exactly that length. -/
def decode_resampled {σ : Type} (R : ResamplerModel σ) (stream : List F32Packet)
    (track_id pcm_sample_rate target_sample_rate n_channels : Nat)
    (file_frames : Option Nat) (max_bytes fuel : Nat) :
    Option (Except LoadErr DecodedAudioF32) :=
  if n_channels = 0 then none
  else
    let max_frames := max_bytes / (4 * n_channels)
    if file_frames.any (fun f => f > max_frames) then
      some (.error (.fileTooLarge max_bytes))
    else
      let st0 : RState σ := {
        rs := R.resetState
        in_buf := List.replicate n_channels (List.replicate R.input_frames_max 0)
        out_buf := List.replicate n_channels (List.replicate R.output_frames_max 0)
        in_len := 0
        desired := R.input_frames_next R.resetState
        delay_left := R.output_delay
        final_buf := List.replicate n_channels []
        total_in := 0 }
      match resampledPacketLoop R track_id max_frames file_frames max_bytes fuel stream st0 with
      | none => none
      | some (.error e) => some (.error e)
      | some (.ok st) =>
        let total_frames := natCeilDiv (st.total_in * target_sample_rate) pcm_sample_rate
        let flushed : Except LoadErr (RState σ) :=
          if st.in_len > 0 then
            resampleStep R { st with
              in_buf := st.in_buf.map fun ch =>
                setSlice ch st.in_len (List.replicate (st.desired - st.in_len) 0) }
          else .ok st
        match flushed with
        | .error e => some (.error e)
        | .ok st1 =>
          match drainLoop R total_frames fuel st1 with
          | none => none
          | some (.error e) => some (.error e)
          | some (.ok st2) =>
            let final := st2.final_buf.map fun ch => resizeTo ch total_frames
            (DecodedAudioF32.new final target_sample_rate).map .ok

/-- Total number of frames successfully decoded from the stream for the
selected track (the reference value `total_in_frames` accumulates). -/
def streamInFrames (track_id : Nat) : List F32Packet → Nat
  | [] => 0
  | p :: rest =>
    (if p.track_id = track_id then
      match p.outcome with
      | .ok planes => (planes.headD []).length
      | _ => 0
    else 0) + streamInFrames track_id rest

/-- Bytes per sample of a resource's storage (the divisor family used by
the `max_frames` computations). -/
def DecodedAudioType.bps : DecodedAudioType → Nat
  | .U8 _ => 1
  | .U16 _ => 2
  | .U24 _ => 3
  | .S8 _ => 1
  | .S16 _ => 2
  | .S24 _ => 3
  | .F32 _ => 4
  | .F64 _ => 8

/-- Length of channel 0 of a resource's storage. -/
def DecodedAudioType.chan0len : DecodedAudioType → Nat
  | .U8 d => (d.headD []).length
  | .U16 d => (d.headD []).length
  | .U24 d => (d.headD []).length
  | .S8 d => (d.headD []).length
  | .S16 d => (d.headD []).length
  | .S24 d => (d.headD []).length
  | .F32 d => (d.headD []).length
  | .F64 d => (d.headD []).length

/-- Number of channel buffers held by the accumulator. -/
def NativeAcc.nchans : NativeAcc → Nat
  | .U8 d => d.length
  | .U16 d => d.length
  | .U24 d => d.length
  | .U32 d => d.length
  | .S8 d => d.length
  | .S16 d => d.length
  | .S24 d => d.length
  | .S32 d => d.length
  | .F32 d => d.length
  | .F64 d => d.length

/-- Whether `decoder.decode` succeeded for this packet. -/
def DecodeOutcome.isOk : DecodeOutcome → Bool
  | .ok _ => true
  | _ => false

/-- Total number of frames successfully decoded from a native-path
stream for the selected track. -/
def nativeStreamFrames (track_id : Nat) : List Packet → Nat
  | [] => 0
  | p :: rest =>
    (if p.track_id = track_id then
      match p.outcome with
      | .ok buf => buf.chan0len
      | _ => 0
    else 0) + nativeStreamFrames track_id rest

/-! ## lib.rs — probing and dispatch -/

/-- The probed default track's codec parameters consumed by
`load_audio_source` (`sample_rate` and `channels.count()`). -/
structure TrackInfo where
  sample_rate : Option Nat
  channel_count : Option Nat
deriving DecidableEq, Repr

/-- The `LoadedAudioSource` data handed to the decode stage. -/
structure LoadedAudioSource where
  sample_rate : Nat
  n_channels : Nat
deriving DecidableEq, Repr

/-- `load_audio_source` after a successful probe: no default track is an
error; a missing declared sample rate is not — `44100` is assumed (the
logged warning is a side effect outside the model); missing channel
information or a zero channel count is an error. -/
def load_audio_source (track : Option TrackInfo) : Except LoadErr LoadedAudioSource :=
  match track with
  | none => .error .noTrackFound
  | some t =>
    let sample_rate := t.sample_rate.getD 44100
    match t.channel_count with
    | none => .error .noChannelsFound
    | some n => if n = 0 then .error .noChannelsFound else .ok ⟨sample_rate, n⟩

/-- The dispatch in `lib.rs::decode`: with a target rate differing from
the source rate, the resampled path runs and the resource reports the
target rate; otherwise the native path runs and the resource reports the
source rate. -/
def decode_dispatch_rate (src : LoadedAudioSource) (target_sample_rate : Option Nat) : Nat :=
  match target_sample_rate with
  | some t => if src.sample_rate ≠ t then t else src.sample_rate
  | none => src.sample_rate

/-! ## Shared lemmas -/

/-- The output buffer of `fill_channel` always has the input buffer's
length. -/
theorem fill_channel_snd_length (a : DecodedAudio) (channel frame : Nat) (buf : List ℚ) :
    (a.fill_channel channel frame buf).2.length = buf.length := by
  unfold DecodedAudio.fill_channel
  split_ifs with h1 h2 h3 <;> simp
  omega

/-- Constructing a resource records the requested sample rate. -/
theorem new_sample_rate {t : DecodedAudioType} {sr : Nat} {a : DecodedAudio}
    (h : DecodedAudio.new t sr = some a) : a.sample_rate = sr := by
  cases t <;> simp only [DecodedAudio.new, Option.map_eq_some'] at h <;>
    obtain ⟨p, -, rfl⟩ := h <;> rfl

/-- A successful native-path load reports the sample rate it was
given. -/
theorem decode_native_ok_sample_rate {stream : List Packet}
    {track_id n_channels : Nat} {file_frames : Option Nat} {sample_rate max_bytes : Nat}
    {a : DecodedAudio} {k : Nat}
    (h : decode_native_bitdepth stream track_id n_channels file_frames sample_rate max_bytes =
      (some (.ok a), k)) : a.sample_rate = sample_rate := by
  unfold decode_native_bitdepth at h
  split at h
  · simp at h
  · split at h
    · simp at h
    · simp at h
    · split at h
      · simp at h
      · simp only [Prod.mk.injEq, Option.map_eq_some', Except.ok.injEq] at h
        obtain ⟨⟨b, hb, rfl⟩, -⟩ := h
        exact new_sample_rate hb

/-! ## Claims C2, C6, C7, C8, C10 -/

/-- C2: for every constructed audio resource, every in-range channel,
start frame and output buffer, `fill_channel` zero-fills everything and
reports 0 copied frames when the start is at or past the end; copies the
in-range prefix and zero-fills the overrun when the range crosses the
end, reporting the in-range length; and copies the whole buffer with no
padding when the range is fully in bounds.  The reported count never
exceeds the buffer length and is strictly smaller only when the range
reaches past end-of-data. -/
theorem fill_channel_spec (t : DecodedAudioType) (sr : Nat) (a : DecodedAudio)
    (_hnew : DecodedAudio.new t sr = some a) (channel : Nat) (_hc : channel < a.channels)
    (s : Nat) (buf : List ℚ) :
    ∃ n out, a.fill_channel channel s buf = (some n, out) ∧
      out.length = buf.length ∧ n ≤ buf.length ∧
      (a.frames ≤ s → n = 0 ∧ out = List.replicate buf.length 0) ∧
      (s < a.frames → a.frames < s + buf.length →
        n = a.frames - s ∧
        out = ((List.range (a.frames - s)).map fun i =>
            a.resource_type.sampleAt channel (s + i)) ++
          List.replicate (buf.length - (a.frames - s)) 0) ∧
      (s + buf.length ≤ a.frames →
        n = buf.length ∧
        out = (List.range buf.length).map fun i => a.resource_type.sampleAt channel (s + i)) ∧
      (n < buf.length → a.frames < s + buf.length) := by
  have hch : ¬ channel ≥ a.channels := by omega
  by_cases hs : s ≥ a.frames
  · refine ⟨0, List.replicate buf.length 0, ?_, ?_, ?_, ?_, ?_, ?_, ?_⟩
    · simp [DecodedAudio.fill_channel, hch, hs]
    · simp
    · simp
    · exact fun _ => ⟨rfl, rfl⟩
    · exact fun h _ => absurd h (by omega)
    · intro hle
      have hb : buf.length = 0 := by omega
      simp [hb]
    · intro h
      have : 0 < buf.length := by omega
      omega
  · push_neg at hs
    by_cases hover : s + buf.length > a.frames
    · refine ⟨a.frames - s,
        ((List.range (a.frames - s)).map fun i =>
          a.resource_type.sampleAt channel (s + i)) ++
          List.replicate (buf.length - (a.frames - s)) 0, ?_, ?_, ?_, ?_, ?_, ?_, ?_⟩
      · simp [DecodedAudio.fill_channel, hch, hover]
        omega
      · simp; omega
      · omega
      · exact fun h => absurd h (by omega)
      · exact fun _ _ => ⟨rfl, rfl⟩
      · exact fun h => absurd h (by omega)
      · omega
    · push_neg at hover
      refine ⟨buf.length,
        (List.range buf.length).map fun i => a.resource_type.sampleAt channel (s + i),
        ?_, ?_, ?_, ?_, ?_, ?_, ?_⟩
      · have hno : ¬ s + buf.length > a.frames := by omega
        simp [DecodedAudio.fill_channel, hch, hno]
        exact fun h => absurd h (by omega)
      · simp
      · omega
      · exact fun h => absurd h (by omega)
      · exact fun _ h => absurd h (by omega)
      · exact fun _ => ⟨rfl, rfl⟩
      · omega

/-- C2 witness: the spec's 4-frame example, queried over the end
boundary. -/
theorem fill_channel_spec_witness :
    ∃ n out,
      (⟨.F32 [[1, 2, 3, 4]], 44100, 1, 4⟩ : DecodedAudio).fill_channel 0 2 [0, 0, 0, 0] =
        (some n, out) ∧
      out.length = 4 ∧ n ≤ 4 ∧
      (4 ≤ 2 → n = 0 ∧ out = List.replicate 4 0) ∧
      (2 < 4 → 4 < 2 + 4 →
        n = 4 - 2 ∧
        out = ((List.range (4 - 2)).map fun i =>
            (DecodedAudioType.F32 [[1, 2, 3, 4]]).sampleAt 0 (2 + i)) ++
          List.replicate (4 - (4 - 2)) 0) ∧
      (2 + 4 ≤ 4 → n = 4 ∧
        out = (List.range 4).map fun i =>
          (DecodedAudioType.F32 [[1, 2, 3, 4]]).sampleAt 0 (2 + i)) ∧
      (n < 4 → 4 < 2 + 4) :=
  fill_channel_spec (.F32 [[1, 2, 3, 4]]) 44100 _ (by decide) 0 (by decide) 2 [0, 0, 0, 0]

/-- C6: on a single-channel resource, `fill_stereo` with equal-length
buffers returns exactly what `fill_channel` on channel 0 produces, in
both outputs, with the same copied-frame count. -/
theorem fill_stereo_mono (t : DecodedAudioType) (sr : Nat) (a : DecodedAudio)
    (_hnew : DecodedAudio.new t sr = some a) (h1 : a.channels = 1) (frame : Nat)
    (buf_l buf_r : List ℚ) (hlen : buf_l.length = buf_r.length) :
    ∃ n out, a.fill_channel 0 frame buf_l = (some n, out) ∧
      a.fill_stereo frame buf_l buf_r = some (n, out, out) := by
  have hch : ¬ (0 ≥ a.channels) := by omega
  obtain ⟨n, out, hfc⟩ : ∃ n out, a.fill_channel 0 frame buf_l = (some n, out) := by
    unfold DecodedAudio.fill_channel
    split_ifs with h1 h2 <;> first | omega | exact ⟨_, _, rfl⟩
  have hout : out.length = buf_l.length := by
    have := fill_channel_snd_length a 0 frame buf_l
    rw [hfc] at this
    exact this
  refine ⟨n, out, hfc, ?_⟩
  have hcond : buf_r.length = out.length := by omega
  simp [DecodedAudio.fill_stereo, h1, hfc, hcond]

/-- C6 witness: a concrete mono resource duplicated into both stereo
outputs. -/
theorem fill_stereo_mono_witness :
    ∃ n out,
      (⟨.F32 [[5, 6]], 44100, 1, 2⟩ : DecodedAudio).fill_channel 0 0 [0, 0, 0] =
        (some n, out) ∧
      (⟨.F32 [[5, 6]], 44100, 1, 2⟩ : DecodedAudio).fill_stereo 0 [0, 0, 0] [9, 9, 9] =
        some (n, out, out) :=
  fill_stereo_mono (.F32 [[5, 6]]) 44100 _ (by decide) rfl 0 [0, 0, 0] [9, 9, 9] rfl

/-- C7 (code bug): `pcm_i8_to_f32`, `pcm_i16_to_f32` and `pcm_i32_to_f32`
divide the sample value by the maximum positive magnitude, so the most
negative inputs map below `-1`; but `pcm_i24_to_f32_le` zero-extends the
three bytes instead of sign-extending them, so the bytes of the i24
sample `-1` map to `16777215 / 8388607 ≈ 2`, not to the sample value
divided by `8388607`, contradicting the function's documented
`[-1.0, 1.0]` range. -/
theorem i24_conversion_ignores_sign :
    pcm_i8_to_f32 (-128) = -(128 / 127) ∧ pcm_i8_to_f32 (-128) < -1 ∧
    pcm_i16_to_f32 (-32768) = -(32768 / 32767) ∧ pcm_i16_to_f32 (-32768) < -1 ∧
    pcm_i32_to_f32 (-2147483648) = -(2147483648 / 2147483647) ∧
    pcm_i32_to_f32 (-2147483648) < -1 ∧
    i24_sample_value ⟨255, 255, 255⟩ = -1 ∧
    pcm_i24_to_f32_le ⟨255, 255, 255⟩ = 16777215 / 8388607 ∧
    pcm_i24_to_f32_le ⟨255, 255, 255⟩ ≠ ((i24_sample_value ⟨255, 255, 255⟩ : ℚ) / 8388607) ∧
    1 < pcm_i24_to_f32_le ⟨255, 255, 255⟩ := by
  refine ⟨?_, ?_, ?_, ?_, ?_, ?_, ?_, ?_, ?_, ?_⟩ <;>
    norm_num [pcm_i8_to_f32, pcm_i16_to_f32, pcm_i32_to_f32, pcm_i24_to_f32_le,
      i32_from_le_bytes, u32_from_le_bytes, i24_sample_value]

/-- C8: the unsigned conversions map the minimum input to exactly `-1`
and the maximum input to exactly `1`; every signed conversion maps `0`
to exactly `0` (exact-arithmetic model of the float formulas). -/
theorem conversion_boundary_values :
    pcm_u8_to_f32 0 = -1 ∧ pcm_u8_to_f32 255 = 1 ∧
    pcm_u16_to_f32 0 = -1 ∧ pcm_u16_to_f32 65535 = 1 ∧
    pcm_u24_to_f32_le ⟨0, 0, 0⟩ = -1 ∧ pcm_u24_to_f32_le ⟨255, 255, 255⟩ = 1 ∧
    pcm_i8_to_f32 0 = 0 ∧ pcm_i16_to_f32 0 = 0 ∧
    pcm_i24_to_f32_le ⟨0, 0, 0⟩ = 0 ∧ pcm_i32_to_f32 0 = 0 := by
  refine ⟨?_, ?_, ?_, ?_, ?_, ?_, ?_, ?_, ?_, ?_⟩ <;>
    norm_num [pcm_u8_to_f32, pcm_u16_to_f32, pcm_u24_to_f32_le, pcm_i8_to_f32,
      pcm_i16_to_f32, pcm_i24_to_f32_le, pcm_i32_to_f32, i32_from_le_bytes,
      u32_from_le_bytes]

/-- C10: requesting a channel at or beyond the channel count fails and
returns the output buffer exactly as it was passed in — no zero-fill, no
partial write. -/
theorem fill_channel_bad_channel (a : DecodedAudio) (channel frame : Nat) (buf : List ℚ)
    (h : channel ≥ a.channels) : a.fill_channel channel frame buf = (none, buf) := by
  simp [DecodedAudio.fill_channel, h]

/-- C10 witness: channel 1 of a mono resource; the buffer contents
survive untouched. -/
theorem fill_channel_bad_channel_witness :
    (⟨.F32 [[1, 2]], 44100, 1, 2⟩ : DecodedAudio).fill_channel 1 0 [7, 8] = (none, [7, 8]) :=
  fill_channel_bad_channel _ 1 0 [7, 8] (by decide)

/-! ## Claim C9 -/

/-- C9: a probed track that declares no sample rate does not fail the
load — 44100 is assumed; decoding proceeds and the resulting resource
reports sample rate 44100 unless resampling to a different target rate
was requested. -/
theorem missing_sample_rate_assumes_44100 (t : TrackInfo) (hr : t.sample_rate = none)
    (n : Nat) (hc : t.channel_count = some n) (hn : 0 < n) (target : Option Nat) :
    ∃ src, load_audio_source (some t) = .ok src ∧ src.sample_rate = 44100 ∧
      src.n_channels = n ∧
      ((target = none ∨ target = some 44100) → decode_dispatch_rate src target = 44100) ∧
      ∀ (stream : List Packet) (track_id : Nat) (file_frames : Option Nat) (max_bytes : Nat)
        (a : DecodedAudio) (k : Nat),
        decode_native_bitdepth stream track_id src.n_channels file_frames src.sample_rate
            max_bytes = (some (.ok a), k) → a.sample_rate = 44100 := by
  refine ⟨⟨44100, n⟩, ?_, rfl, rfl, ?_, ?_⟩
  · simp [load_audio_source, hr, hc, Nat.pos_iff_ne_zero.1 hn]
  · rintro (rfl | rfl) <;> simp [decode_dispatch_rate]
  · intro stream track_id file_frames max_bytes a k h
    exact decode_native_ok_sample_rate h

/-- C9 witness: a track with no declared sample rate and two channels,
no resampling requested. -/
theorem missing_sample_rate_witness :
    ∃ src, load_audio_source (some ⟨none, some 2⟩) = .ok src ∧ src.sample_rate = 44100 ∧
      src.n_channels = 2 ∧
      (((none : Option Nat) = none ∨ (none : Option Nat) = some 44100) →
        decode_dispatch_rate src none = 44100) ∧
      ∀ (stream : List Packet) (track_id : Nat) (file_frames : Option Nat) (max_bytes : Nat)
        (a : DecodedAudio) (k : Nat),
        decode_native_bitdepth stream track_id src.n_channels file_frames src.sample_rate
            max_bytes = (some (.ok a), k) → a.sample_rate = 44100 :=
  missing_sample_rate_assumes_44100 ⟨none, some 2⟩ rfl 2 rfl (by decide) none

/-! ## Claim C3 -/

/-- Packets before the first successful decode (foreign-track or
recoverable) only shift the decode-call count: each matching recoverable
packet costs one decode call. -/
theorem firstPacketLoop_skip_pre (track_id n_channels : Nat) (file_frames : Option Nat)
    (max_bytes : Nat) (pre rest : List Packet)
    (hpre : ∀ p ∈ pre, p.track_id ≠ track_id ∨ p.outcome = .recoverable) :
    firstPacketLoop track_id n_channels file_frames max_bytes (pre ++ rest) =
      ((firstPacketLoop track_id n_channels file_frames max_bytes rest).1,
       (firstPacketLoop track_id n_channels file_frames max_bytes rest).2 +
         (pre.filter fun p => p.track_id = track_id).length) := by
  induction pre with
  | nil => simp
  | cons p pre ih =>
    have hrest : ∀ q ∈ pre, q.track_id ≠ track_id ∨ q.outcome = .recoverable :=
      fun q hq => hpre q (by simp [hq])
    by_cases ht : p.track_id = track_id
    · have hout : p.outcome = .recoverable := by
        rcases hpre p (by simp) with h | h
        · exact absurd ht h
        · exact h
      have hstep : firstPacketLoop track_id n_channels file_frames max_bytes
          (p :: (pre ++ rest)) =
          ((firstPacketLoop track_id n_channels file_frames max_bytes (pre ++ rest)).1,
           (firstPacketLoop track_id n_channels file_frames max_bytes (pre ++ rest)).2 + 1) := by
        simp [firstPacketLoop, ht, hout]
      rw [List.cons_append, hstep, ih hrest]
      simp [Prod.ext_iff, List.filter_cons, ht]
      omega
    · have hstep : firstPacketLoop track_id n_channels file_frames max_bytes
          (p :: (pre ++ rest)) =
          firstPacketLoop track_id n_channels file_frames max_bytes (pre ++ rest) := by
        simp [firstPacketLoop, ht]
      rw [List.cons_append, hstep, ih hrest]
      simp [List.filter_cons, ht]

/-- C3 counterexample: a mono i16 source declaring 10 frames under
`max_bytes = 4` (only 2 frames fit) fails with `FileTooLarge` — but only
after one `decoder.decode` call, because the native path must decode a
packet to learn the bytes-per-sample.  The claim's "no decode call is
made prior to the failure" is therefore false. -/
theorem decode_call_precedes_size_check :
    decode_native_bitdepth [⟨0, .ok (.S16 [[5, 6, 7]])⟩] 0 1 (some 10) 44100 4 =
      (some (.error (.fileTooLarge 4)), 1) ∧ (1 : Nat) ≠ 0 := by
  constructor
  · decide
  · decide

/-- C3 amended: on the native-bitdepth path a declared frame count
exceeding the byte budget fails with `FileTooLarge` immediately after
the first successful packet decode (one decode call per earlier matching
recoverable packet, plus the one successful call; nothing after it is
decoded); on the f32 and resampled paths, whose bytes-per-sample is
fixed at 4, the check fails before any packet is decoded — the failure
is the same for every stream, every engine and every fuel bound. -/
theorem size_check_after_first_packet
    (pre : List Packet) (track_id : Nat)
    (hpre : ∀ p ∈ pre, p.track_id ≠ track_id ∨ p.outcome = .recoverable)
    (buf : PacketBuf) (post : List Packet) (n_channels : Nat) (hn : 0 < n_channels)
    (f sample_rate max_bytes : Nat)
    (hbig : f > max_bytes / (buf.bps * n_channels)) :
    decode_native_bitdepth (pre ++ ⟨track_id, .ok buf⟩ :: post) track_id n_channels (some f)
        sample_rate max_bytes =
      (some (.error (.fileTooLarge max_bytes)),
        (pre.filter fun p => p.track_id = track_id).length + 1) ∧
    (∀ (stream2 : List F32Packet) (track_id2 n2 f2 sample_rate2 max_bytes2 : Nat),
      0 < n2 → f2 > max_bytes2 / (4 * n2) →
      decode_f32 stream2 track_id2 n2 (some f2) sample_rate2 max_bytes2 =
        (some (.error (.fileTooLarge max_bytes2)), 0)) ∧
    (∀ {σ : Type} (R : ResamplerModel σ) (stream3 : List F32Packet)
      (track_id3 psr3 tsr3 n3 f3 max_bytes3 fuel3 : Nat),
      0 < n3 → f3 > max_bytes3 / (4 * n3) →
      decode_resampled R stream3 track_id3 psr3 tsr3 n3 (some f3) max_bytes3 fuel3 =
        some (.error (.fileTooLarge max_bytes3))) := by
  refine ⟨?_, ?_, ?_⟩
  · unfold decode_native_bitdepth
    rw [if_neg (by omega)]
    rw [firstPacketLoop_skip_pre _ _ _ _ pre _ hpre]
    simp only [firstPacketLoop, if_neg (show ¬ track_id ≠ track_id by simp)]
    rw [if_pos hbig]
    simp
    omega
  · intro stream2 track_id2 n2 f2 sample_rate2 max_bytes2 hn2 hbig2
    unfold decode_f32
    rw [if_neg (by omega)]
    rw [if_pos (by simp [Option.any]; omega)]
  · intro σ R stream3 track_id3 psr3 tsr3 n3 f3 max_bytes3 fuel3 hn3 hbig3
    unfold decode_resampled
    rw [if_neg (by omega)]
    rw [if_pos (by simp [Option.any]; omega)]

/-- C3 witness: two skipped packets (one foreign, one recoverable), then
the first successful i16 decode triggers the failure; the f32 clause at
an empty stream; the resampled clause at a non-empty stream whose packet
is never decoded. -/
theorem size_check_after_first_packet_witness :
    decode_native_bitdepth
        ([⟨1, .ok (.U8 [[1]])⟩, ⟨0, .recoverable⟩] ++ ⟨0, .ok (.S16 [[5, 6, 7]])⟩ :: []) 0 1
        (some 10) 44100 4 =
      (some (.error (.fileTooLarge 4)),
        (([⟨1, .ok (.U8 [[1]])⟩, ⟨0, .recoverable⟩] : List Packet).filter
          fun p => p.track_id = 0).length + 1) ∧
    decode_f32 [] 0 1 (some 10) 44100 4 = (some (.error (.fileTooLarge 4)), 0) ∧
    decode_resampled ⟨(), 2, 2, 0, fun _ => 2, fun s inp => some (s, 2, inp)⟩
        [⟨0, .ok [[1, 2]]⟩] 0 44100 48000 1 (some 10) 4 8 =
      some (.error (.fileTooLarge 4)) :=
  have T := size_check_after_first_packet [⟨1, .ok (.U8 [[1]])⟩, ⟨0, .recoverable⟩] 0
    (by decide) (.S16 [[5, 6, 7]]) [] 1 (by decide) 10 44100 4 (by decide)
  ⟨T.1, T.2.1 [] 0 1 10 44100 4 (by decide) (by decide),
    T.2.2 ⟨(), 2, 2, 0, fun _ => 2, fun s inp => some (s, 2, inp)⟩
      [⟨0, .ok [[1, 2]]⟩] 0 44100 48000 1 10 4 8 (by decide) (by decide)⟩

/-! ## Claim C4 -/

/-- `getD 0` with default `[]` is `headD []`. -/
theorem getD_zero_eq_headD {γ : Type} (l : List (List γ)) : l.getD 0 [] = l.headD [] := by
  cases l <;> rfl

/-- Appending a packet's channels preserves the channel count. -/
theorem extendChannels_length {α β : Type} (f : α → β) (acc : List (List β))
    (d : List (List α)) : (extendChannels f acc d).length = acc.length := by
  simp [extendChannels]

/-- Appending a packet's channels adds the packet's channel-0 length to
channel 0. -/
theorem extendChannels_chan0len {α β : Type} (f : α → β) (a : List (List β))
    (d : List (List α)) (h : a ≠ []) :
    ((extendChannels f a d).headD []).length = (a.headD []).length + (d.headD []).length := by
  cases a with
  | nil => exact absurd rfl h
  | cons c cs =>
    cases d <;> simp [extendChannels, List.mapIdx_cons]

/-- The first packet fixes the accumulator's bytes-per-sample. -/
theorem ofFirst_bps (buf : PacketBuf) (n : Nat) :
    (NativeAcc.ofFirst buf n).bps = buf.bps := by
  cases buf <;> rfl

/-- The first packet allocates exactly `n` channels. -/
theorem ofFirst_nchans (buf : PacketBuf) (n : Nat) :
    (NativeAcc.ofFirst buf n).nchans = n := by
  cases buf <;> simp [NativeAcc.ofFirst, NativeAcc.nchans, extendChannels]

/-- After the first packet, channel 0 holds that packet's frames. -/
theorem ofFirst_chan0len (buf : PacketBuf) (n : Nat) (hn : 0 < n) :
    (NativeAcc.ofFirst buf n).chan0len = buf.chan0len := by
  obtain ⟨m, rfl⟩ : ∃ m, n = m + 1 := ⟨n - 1, by omega⟩
  cases buf <;>
    · rename_i d
      cases d <;>
        simp [NativeAcc.ofFirst, NativeAcc.chan0len, PacketBuf.chan0len, extendChannels,
          List.replicate_succ, List.mapIdx_cons]

/-- A successful append preserves bytes-per-sample and channel count and
extends channel 0 by the packet's channel-0 length. -/
theorem append_preserves {acc acc' : NativeAcc} {buf : PacketBuf}
    (h : acc.append buf = some acc') :
    acc'.bps = acc.bps ∧ acc'.nchans = acc.nchans ∧
      (acc.nchans ≠ 0 → acc'.chan0len = acc.chan0len + buf.chan0len) := by
  cases acc <;> cases buf <;> simp only [NativeAcc.append] at h <;>
    first
    | exact Option.noConfusion h
    | · obtain rfl := Option.some.inj h
        refine ⟨rfl, by simp [NativeAcc.nchans, extendChannels_length], fun hne => ?_⟩
        rename_i a d
        have ha : a ≠ [] := by
          simp only [NativeAcc.nchans] at hne
          exact fun hc => hne (by simp [hc])
        simp only [NativeAcc.chan0len, PacketBuf.chan0len]
        exact extendChannels_chan0len _ a d ha

/-- Wrapping the accumulator preserves channel 0. -/
theorem toType_chan0len (acc : NativeAcc) : acc.toType.chan0len = acc.chan0len := by
  cases acc <;> rfl

/-- Wrapping the accumulator preserves bytes-per-sample (`U32`/`S32`
were already stored as 4-byte floats). -/
theorem toType_bps (acc : NativeAcc) : acc.toType.bps = acc.bps := by
  cases acc <;> rfl

/-- Every storage format occupies at least one byte per sample. -/
theorem type_bps_pos (t : DecodedAudioType) : 0 < t.bps := by
  cases t <;> norm_num [DecodedAudioType.bps]

/-- Constructing a resource records the data and channel-0 length. -/
theorem new_resource_type_frames {t : DecodedAudioType} {sr : Nat} {a : DecodedAudio}
    (h : DecodedAudio.new t sr = some a) :
    a.resource_type = t ∧ a.frames = t.chan0len := by
  cases t <;>
    · simp only [DecodedAudio.new, Option.map_eq_some'] at h
      obtain ⟨p, hp, rfl⟩ := h
      refine ⟨rfl, ?_⟩
      simp only [DecodedAudioType.chan0len]
      unfold checkChannels at hp
      split at hp
      · exact Option.noConfusion hp
      · split at hp
        · obtain rfl := Option.some.inj hp
          simp
        · exact Option.noConfusion hp

/-- Invariant of the continuation loop with no declared frame count: on
success the accumulator keeps its shape, gains exactly the stream's
successfully decoded frames, and never exceeds `max_frames`. -/
theorem contLoop_invariant (track_id max_bytes max_frames : Nat) :
    ∀ (rest : List Packet) (acc : NativeAcc) (total : Nat) (accF : NativeAcc),
    (contPacketLoop track_id none max_bytes max_frames acc total rest).1 = .ok accF →
    acc.nchans ≠ 0 → acc.chan0len = total → total ≤ max_frames →
    accF.nchans = acc.nchans ∧ accF.bps = acc.bps ∧
      accF.chan0len = total + nativeStreamFrames track_id rest ∧
      accF.chan0len ≤ max_frames := by
  intro rest
  induction rest with
  | nil =>
    intro acc total accF h hn hc ht
    simp only [contPacketLoop] at h
    obtain rfl := Except.ok.inj h
    exact ⟨rfl, rfl, by simp [nativeStreamFrames, hc], by omega⟩
  | cons p rest ih =>
    intro acc total accF h hn hc ht
    by_cases htid : p.track_id = track_id
    · cases hout : p.outcome with
      | ok buf =>
        simp only [contPacketLoop, htid, hout,
          if_neg (show ¬ track_id ≠ track_id by simp)] at h
        cases happ : acc.append buf with
        | none => rw [happ] at h; simp at h
        | some acc' =>
          rw [happ] at h
          obtain ⟨hbps, hnch, hlen⟩ := append_preserves happ
          simp only [check_total_frames] at h
          by_cases hgt : total + buf.chan0len > max_frames
          · rw [if_pos hgt] at h
            simp at h
          · rw [if_neg hgt] at h
            simp only [] at h
            obtain ⟨h1, h2, h3, h4⟩ := ih acc' (total + buf.chan0len) accF h
              (by omega) (by rw [hlen hn, hc]) (by omega)
            refine ⟨by omega, by rw [h2, hbps], ?_, h4⟩
            have hns : nativeStreamFrames track_id (p :: rest) =
                buf.chan0len + nativeStreamFrames track_id rest := by
              simp [nativeStreamFrames, htid, hout]
            rw [hns, h3]
            omega
      | recoverable =>
        simp only [contPacketLoop, htid, hout,
          if_neg (show ¬ track_id ≠ track_id by simp)] at h
        obtain ⟨h1, h2, h3, h4⟩ := ih acc total accF h hn hc ht
        refine ⟨h1, h2, ?_, h4⟩
        rw [h3]
        simp [nativeStreamFrames, htid, hout]
      | fatal =>
        simp only [contPacketLoop, htid, hout,
          if_neg (show ¬ track_id ≠ track_id by simp)] at h
        simp at h
    · simp only [contPacketLoop, if_pos htid] at h
      obtain ⟨h1, h2, h3, h4⟩ := ih acc total accF h hn hc ht
      refine ⟨h1, h2, ?_, h4⟩
      rw [h3]
      simp [nativeStreamFrames, htid]

/-- Invariant of the first-packet loop with no declared frame count: on
success the accumulator holds exactly the first decoded packet, within
budget, and the stream splits accordingly. -/
theorem firstLoop_invariant (track_id n_channels max_bytes : Nat) :
    ∀ (stream : List Packet) (acc : NativeAcc) (max_frames total : Nat)
      (rest : List Packet),
    (firstPacketLoop track_id n_channels none max_bytes stream).1 =
      .ok (some (acc, max_frames, total, rest)) →
    0 < n_channels →
    acc.nchans = n_channels ∧ acc.chan0len = total ∧ total ≤ max_frames ∧
      max_frames = max_bytes / (acc.bps * n_channels) ∧
      nativeStreamFrames track_id stream = total + nativeStreamFrames track_id rest := by
  intro stream
  induction stream with
  | nil =>
    intro acc max_frames total rest h hn
    simp [firstPacketLoop] at h
  | cons p tail ih =>
    intro acc max_frames total rest h hn
    by_cases htid : p.track_id = track_id
    · cases hout : p.outcome with
      | ok buf =>
        simp only [firstPacketLoop, htid, hout,
          if_neg (show ¬ track_id ≠ track_id by simp)] at h
        simp only [check_total_frames] at h
        by_cases hgt : 0 + buf.chan0len > max_bytes / (buf.bps * n_channels)
        · rw [if_pos hgt] at h
          simp at h
        · rw [if_neg hgt] at h
          simp only [Prod.mk.injEq, Option.some.injEq, Except.ok.injEq] at h
          obtain ⟨h1, h2, h3, h4⟩ := h
          subst h1; subst h2; subst h3; subst h4
          refine ⟨ofFirst_nchans buf n_channels, ?_, by omega, ?_, ?_⟩
          · rw [ofFirst_chan0len buf n_channels hn]
            omega
          · rw [ofFirst_bps]
          · simp [nativeStreamFrames, htid, hout]
      | recoverable =>
        simp only [firstPacketLoop, htid, hout,
          if_neg (show ¬ track_id ≠ track_id by simp)] at h
        obtain ⟨h1, h2, h3, h4, h5⟩ := ih acc max_frames total rest h hn
        refine ⟨h1, h2, h3, h4, ?_⟩
        rw [← h5]
        simp [nativeStreamFrames, htid, hout]
      | fatal =>
        simp only [firstPacketLoop, htid, hout,
          if_neg (show ¬ track_id ≠ track_id by simp)] at h
        simp at h
    · simp only [firstPacketLoop, if_pos htid] at h
      obtain ⟨h1, h2, h3, h4, h5⟩ := ih acc max_frames total rest h hn
      refine ⟨h1, h2, h3, h4, ?_⟩
      rw [← h5]
      simp [nativeStreamFrames, htid]


/-- C4 counterexample: a source declaring 1 frame of u8 mono under a
2-byte budget passes the upfront check, then the stream actually
delivers 6 frames; the load succeeds with 6 retained bytes — three times
the budget — because the running check only runs when no frame count was
declared. -/
theorem declared_count_disables_budget :
    decode_native_bitdepth [⟨0, .ok (.U8 [[1, 2, 3]])⟩, ⟨0, .ok (.U8 [[4, 5, 6]])⟩] 0 1
        (some 1) 44100 2 =
      (some (.ok ⟨.U8 [[1, 2, 3, 4, 5, 6]], 44100, 1, 6⟩), 2) ∧
    6 * 1 * 1 > 2 := by
  constructor
  · decide
  · decide

/-- C4 amended: the byte budget is enforced against the retained buffers
only when the source declares no total frame count; in that case a
successful native-path load retains exactly the stream's decoded frames
and their byte size never exceeds `max_bytes` (a packet that would
exceed it aborts with `FileTooLarge` instead of truncating).  When a
frame count is declared, only the upfront declared-count check runs, and
a stream with more actual frames than declared can exceed the budget
without failing. -/
theorem undeclared_budget_never_exceeded (stream : List Packet)
    (track_id n_channels sample_rate max_bytes : Nat) (a : DecodedAudio) (k : Nat)
    (h : decode_native_bitdepth stream track_id n_channels none sample_rate max_bytes =
      (some (.ok a), k)) :
    a.frames = nativeStreamFrames track_id stream ∧
    a.frames * a.resource_type.bps * n_channels ≤ max_bytes := by
  unfold decode_native_bitdepth at h
  split at h
  · simp at h
  · rename_i hn
    split at h
    · simp at h
    · simp at h
    · rename_i acc max_frames total rest kk hfirst
      split at h
      · simp at h
      · rename_i accF m hcont
        simp only [Prod.mk.injEq, Option.map_eq_some', Except.ok.injEq] at h
        obtain ⟨⟨b, hb, rfl⟩, -⟩ := h
        obtain ⟨hty, hframes⟩ := new_resource_type_frames hb
        have hnpos : 0 < n_channels := by omega
        obtain ⟨f1, f2, f3, f4, f5⟩ := firstLoop_invariant track_id n_channels max_bytes
          stream acc max_frames total rest (by rw [hfirst]) hnpos
        obtain ⟨c1, c2, c3, c4⟩ := contLoop_invariant track_id max_bytes max_frames
          rest acc total accF (by rw [hcont]) (by omega) f2 f3
        constructor
        · rw [hframes, toType_chan0len, c3, f5]
        · have hbb : b.resource_type.bps = acc.bps := by rw [hty, toType_bps, c2]
          have hfr : b.frames ≤ max_bytes / (b.resource_type.bps * n_channels) := by
            rw [hbb, ← f4, hframes, toType_chan0len]
            exact c4
          have hkpos : 0 < b.resource_type.bps * n_channels :=
            Nat.mul_pos (type_bps_pos _) hnpos
          have hmul := (Nat.le_div_iff_mul_le hkpos).1 hfr
          calc b.frames * b.resource_type.bps * n_channels
              = b.frames * (b.resource_type.bps * n_channels) := by ring
            _ ≤ max_bytes := hmul

/-- C4 witness: with no declared frame count, a 2-frame u8 mono load
under a 100-byte budget retains exactly the stream's 2 frames, within
budget. -/
theorem undeclared_budget_witness :
    (⟨.U8 [[1, 2]], 44100, 1, 2⟩ : DecodedAudio).frames =
      nativeStreamFrames 0 [⟨0, .ok (.U8 [[1, 2]])⟩] ∧
    (⟨.U8 [[1, 2]], 44100, 1, 2⟩ : DecodedAudio).frames *
      (⟨.U8 [[1, 2]], 44100, 1, 2⟩ : DecodedAudio).resource_type.bps * 1 ≤ 100 :=
  undeclared_budget_never_exceeded [⟨0, .ok (.U8 [[1, 2]])⟩] 0 1 44100 100
    ⟨.U8 [[1, 2]], 44100, 1, 2⟩ 1 (by decide)

/-! ## Claim C5 -/

/-- A stream with no successful decode for the selected track leaves the
first-packet loop empty-handed or aborted. -/
theorem firstPacketLoop_no_ok (track_id n_channels : Nat) (file_frames : Option Nat)
    (max_bytes : Nat) :
    ∀ stream : List Packet,
    (∀ p ∈ stream, p.track_id = track_id → p.outcome.isOk = false) →
    (firstPacketLoop track_id n_channels file_frames max_bytes stream).1 = .ok none ∨
    (firstPacketLoop track_id n_channels file_frames max_bytes stream).1 =
      .error .errorWhileDecoding := by
  intro stream
  induction stream with
  | nil => intro _; left; rfl
  | cons p rest ih =>
    intro hno
    have hrest : ∀ p ∈ rest, p.track_id = track_id → p.outcome.isOk = false :=
      fun q hq => hno q (by simp [hq])
    by_cases htid : p.track_id = track_id
    · cases hout : p.outcome with
      | ok buf =>
        have := hno p (by simp) htid
        rw [hout] at this
        simp [DecodeOutcome.isOk] at this
      | recoverable =>
        simp only [firstPacketLoop, htid, hout,
          if_neg (show ¬ track_id ≠ track_id by simp)]
        exact ih hrest
      | fatal =>
        simp only [firstPacketLoop, htid, hout,
          if_neg (show ¬ track_id ≠ track_id by simp)]
        simp
    · simp only [firstPacketLoop, if_pos htid]
      exact ih hrest

/-- Skipped recoverable packets are invisible to the f32 packet loop's
result. -/
theorem decodeF32Loop_filter (track_id max_frames : Nat) (file_frames : Option Nat)
    (max_bytes : Nat) :
    ∀ (stream : List F32Packet) (final : List (List ℚ)),
    (decodeF32Loop track_id max_frames file_frames max_bytes
      (stream.filter fun p =>
        decide (¬ (p.track_id = track_id ∧ p.outcome = F32Outcome.recoverable))) final).1 =
    (decodeF32Loop track_id max_frames file_frames max_bytes stream final).1 := by
  intro stream
  induction stream with
  | nil => intro final; rfl
  | cons p rest ih =>
    intro final
    by_cases hrec : p.track_id = track_id ∧ p.outcome = F32Outcome.recoverable
    · rw [List.filter_cons, if_neg (by simp only [decide_eq_true_eq]; exact not_not_intro hrec)]
      rw [show (decodeF32Loop track_id max_frames file_frames max_bytes (p :: rest) final).1 =
          (decodeF32Loop track_id max_frames file_frames max_bytes rest final).1 from by
        simp [decodeF32Loop, hrec.1, hrec.2]]
      exact ih final
    · rw [List.filter_cons, if_pos (by simp only [decide_eq_true_eq]; exact hrec)]
      by_cases htid : p.track_id = track_id
      · cases hout : p.outcome with
        | ok planes =>
          simp only [decodeF32Loop, htid, hout,
            if_neg (show ¬ track_id ≠ track_id by simp)]
          by_cases hbudget : file_frames = none ∧
              ((final.mapIdx fun i ch => ch ++ planes.getD i []).headD []).length > max_frames
          · rw [if_pos hbudget, if_pos hbudget]
          · rw [if_neg hbudget, if_neg hbudget]
            exact ih _
        | recoverable => exact absurd ⟨htid, hout⟩ hrec
        | fatal =>
          simp only [decodeF32Loop, htid, hout,
            if_neg (show ¬ track_id ≠ track_id by simp)]
      · simp only [decodeF32Loop, if_pos htid]
        exact ih final

/-- A stream whose selected-track packets all fail recoverably leaves
the f32 packet loop's buffers untouched. -/
theorem decodeF32Loop_all_recoverable (track_id max_frames : Nat) (file_frames : Option Nat)
    (max_bytes : Nat) :
    ∀ (stream : List F32Packet) (final : List (List ℚ)),
    (∀ p ∈ stream, p.track_id = track_id → p.outcome = F32Outcome.recoverable) →
    (decodeF32Loop track_id max_frames file_frames max_bytes stream final).1 = .ok final := by
  intro stream
  induction stream with
  | nil => intro final _; rfl
  | cons p rest ih =>
    intro final hall
    have hrest : ∀ p ∈ rest, p.track_id = track_id → p.outcome = F32Outcome.recoverable :=
      fun q hq => hall q (by simp [hq])
    by_cases htid : p.track_id = track_id
    · have hout : p.outcome = .recoverable := hall p (by simp) htid
      simp only [decodeF32Loop, htid, hout, if_neg (show ¬ track_id ≠ track_id by simp)]
      exact ih final hrest
    · simp only [decodeF32Loop, if_pos htid]
      exact ih final hrest

/-- A stream whose selected-track packets all fail recoverably leaves
the resample session state untouched. -/
theorem resampledPacketLoop_all_recoverable {σ : Type} (R : ResamplerModel σ)
    (track_id max_frames : Nat) (file_frames : Option Nat) (max_bytes fuel : Nat) :
    ∀ (stream : List F32Packet) (st : RState σ),
    (∀ p ∈ stream, p.track_id = track_id → p.outcome = F32Outcome.recoverable) →
    resampledPacketLoop R track_id max_frames file_frames max_bytes fuel stream st =
      some (.ok st) := by
  intro stream
  induction stream with
  | nil => intro st _; rfl
  | cons p rest ih =>
    intro st hall
    have hrest : ∀ p ∈ rest, p.track_id = track_id → p.outcome = F32Outcome.recoverable :=
      fun q hq => hall q (by simp [hq])
    by_cases htid : p.track_id = track_id
    · have hout : p.outcome = .recoverable := hall p (by simp) htid
      simp only [resampledPacketLoop, htid, hout,
        if_neg (show ¬ track_id ≠ track_id by simp)]
      exact ih st hrest
    · simp only [resampledPacketLoop, if_pos htid]
      exact ih st hrest

/-- Constructing an f32 resource from empty channels succeeds. -/
theorem new_f32_replicate_nil (n sr : Nat) (hn : 0 < n) :
    DecodedAudioF32.new (List.replicate n []) sr = some ⟨List.replicate n [], sr⟩ := by
  obtain ⟨m, rfl⟩ : ∃ m, n = m + 1 := ⟨n - 1, by omega⟩
  simp [DecodedAudioF32.new, checkChannels, List.replicate_succ, List.eq_replicate_iff]

/-- The ceiling of zero frames is zero. -/
theorem natCeilDiv_zero (b : Nat) : natCeilDiv 0 b = 0 := by
  unfold natCeilDiv
  rcases Nat.eq_zero_or_pos b with hb | hb
  · subst hb; rfl
  · exact Nat.div_eq_of_lt (by omega)

/-- Filtering matching recoverable packets changes the first-packet
loop's result only by filtering the returned remainder of the
stream. -/
theorem firstPacketLoop_filter (track_id n_channels : Nat) (file_frames : Option Nat)
    (max_bytes : Nat) :
    ∀ stream : List Packet,
    (firstPacketLoop track_id n_channels file_frames max_bytes (stream.filter fun p =>
      decide (¬ (p.track_id = track_id ∧ p.outcome = DecodeOutcome.recoverable)))).1 =
    (match (firstPacketLoop track_id n_channels file_frames max_bytes stream).1 with
     | .ok (some (acc, max_frames, total, rest)) =>
       .ok (some (acc, max_frames, total, rest.filter fun p =>
         decide (¬ (p.track_id = track_id ∧ p.outcome = DecodeOutcome.recoverable))))
     | r => r) := by
  intro stream
  induction stream with
  | nil => rfl
  | cons p rest ih =>
    by_cases hrec : p.track_id = track_id ∧ p.outcome = DecodeOutcome.recoverable
    · rw [List.filter_cons, if_neg (by simp only [decide_eq_true_eq]; exact not_not_intro hrec)]
      rw [show (firstPacketLoop track_id n_channels file_frames max_bytes (p :: rest)).1 =
          (firstPacketLoop track_id n_channels file_frames max_bytes rest).1 from by
        simp [firstPacketLoop, hrec.1, hrec.2]]
      exact ih
    · rw [List.filter_cons, if_pos (by simp only [decide_eq_true_eq]; exact hrec)]
      by_cases htid : p.track_id = track_id
      · cases hout : p.outcome with
        | ok buf =>
          cases file_frames with
          | some f =>
            by_cases hf : f > max_bytes / (buf.bps * n_channels)
            · simp [firstPacketLoop, htid, hout, hf]
            · simp [firstPacketLoop, htid, hout, hf]
          | none =>
            by_cases hgt : max_bytes / (buf.bps * n_channels) < buf.chan0len
            · simp [firstPacketLoop, htid, hout, check_total_frames, hgt]
            · simp [firstPacketLoop, htid, hout, check_total_frames, hgt]
        | recoverable => exact absurd ⟨htid, hout⟩ hrec
        | fatal => simp [firstPacketLoop, htid, hout]
      · rw [show (firstPacketLoop track_id n_channels file_frames max_bytes
            (p :: (rest.filter fun p =>
              decide (¬ (p.track_id = track_id ∧ p.outcome = DecodeOutcome.recoverable))))).1 =
            (firstPacketLoop track_id n_channels file_frames max_bytes (rest.filter fun p =>
              decide (¬ (p.track_id = track_id ∧ p.outcome = DecodeOutcome.recoverable)))).1
            from by simp [firstPacketLoop, htid]]
        rw [show (firstPacketLoop track_id n_channels file_frames max_bytes (p :: rest)).1 =
            (firstPacketLoop track_id n_channels file_frames max_bytes rest).1 from by
          simp [firstPacketLoop, htid]]
        exact ih

/-- Filtering matching recoverable packets leaves the continuation
loop's result unchanged. -/
theorem contPacketLoop_filter (track_id : Nat) (file_frames : Option Nat)
    (max_bytes max_frames : Nat) :
    ∀ (rest : List Packet) (acc : NativeAcc) (total : Nat),
    (contPacketLoop track_id file_frames max_bytes max_frames acc total
      (rest.filter fun p =>
        decide (¬ (p.track_id = track_id ∧ p.outcome = DecodeOutcome.recoverable)))).1 =
    (contPacketLoop track_id file_frames max_bytes max_frames acc total rest).1 := by
  intro rest
  induction rest with
  | nil => intro acc total; rfl
  | cons p rest ih =>
    intro acc total
    by_cases hrec : p.track_id = track_id ∧ p.outcome = DecodeOutcome.recoverable
    · rw [List.filter_cons, if_neg (by simp only [decide_eq_true_eq]; exact not_not_intro hrec)]
      rw [show (contPacketLoop track_id file_frames max_bytes max_frames acc total
          (p :: rest)).1 =
          (contPacketLoop track_id file_frames max_bytes max_frames acc total rest).1 from by
        simp [contPacketLoop, hrec.1, hrec.2]]
      exact ih acc total
    · rw [List.filter_cons, if_pos (by simp only [decide_eq_true_eq]; exact hrec)]
      by_cases htid : p.track_id = track_id
      · cases hout : p.outcome with
        | ok buf =>
          simp only [contPacketLoop, htid, hout,
            if_neg (show ¬ track_id ≠ track_id by simp)]
          cases happ : acc.append buf with
          | none => rfl
          | some acc' =>
            cases file_frames with
            | some f =>
              simp only []
              exact ih acc' total
            | none =>
              simp only [check_total_frames]
              by_cases hgt : total + buf.chan0len > max_frames
              · rw [if_pos hgt]
              · rw [if_neg hgt]
                simp only []
                exact ih acc' (total + buf.chan0len)
        | recoverable => exact absurd ⟨htid, hout⟩ hrec
        | fatal => simp [contPacketLoop, htid, hout]
      · rw [show (contPacketLoop track_id file_frames max_bytes max_frames acc total
            (p :: (rest.filter fun p =>
              decide (¬ (p.track_id = track_id ∧ p.outcome = DecodeOutcome.recoverable))))).1 =
            (contPacketLoop track_id file_frames max_bytes max_frames acc total
              (rest.filter fun p =>
                decide (¬ (p.track_id = track_id ∧ p.outcome = DecodeOutcome.recoverable)))).1
            from by simp [contPacketLoop, htid]]
        rw [show (contPacketLoop track_id file_frames max_bytes max_frames acc total
            (p :: rest)).1 =
            (contPacketLoop track_id file_frames max_bytes max_frames acc total rest).1 from by
          simp [contPacketLoop, htid]]
        exact ih acc total

/-- Filtering matching recoverable packets leaves the native-bitdepth
load's result unchanged. -/
theorem decode_native_filter (stream : List Packet) (track_id n_channels : Nat)
    (file_frames : Option Nat) (sample_rate max_bytes : Nat) :
    (decode_native_bitdepth (stream.filter fun p =>
        decide (¬ (p.track_id = track_id ∧ p.outcome = DecodeOutcome.recoverable)))
      track_id n_channels file_frames sample_rate max_bytes).1 =
    (decode_native_bitdepth stream track_id n_channels file_frames sample_rate max_bytes).1
    := by
  unfold decode_native_bitdepth
  by_cases hz : n_channels = 0
  · rw [if_pos hz, if_pos hz]
  · rw [if_neg hz, if_neg hz]
    have hfl := firstPacketLoop_filter track_id n_channels file_frames max_bytes stream
    rcases h1 : firstPacketLoop track_id n_channels file_frames max_bytes
        (stream.filter fun p =>
          decide (¬ (p.track_id = track_id ∧ p.outcome = DecodeOutcome.recoverable)))
      with ⟨r1, k1⟩
    rcases h2 : firstPacketLoop track_id n_channels file_frames max_bytes stream with ⟨r2, k2⟩
    rw [h1, h2] at hfl
    simp only at hfl
    cases r2 with
    | error e =>
      simp only at hfl
      subst hfl
      rfl
    | ok o =>
      cases o with
      | none =>
        simp only at hfl
        subst hfl
        rfl
      | some q =>
        obtain ⟨acc, mf, t, rest⟩ := q
        simp only at hfl
        subst hfl
        simp only []
        have hcl := contPacketLoop_filter track_id file_frames max_bytes mf rest acc t
        rcases h3 : contPacketLoop track_id file_frames max_bytes mf acc t
            (rest.filter fun p =>
              decide (¬ (p.track_id = track_id ∧ p.outcome = DecodeOutcome.recoverable)))
          with ⟨s1, m1⟩
        rcases h4 : contPacketLoop track_id file_frames max_bytes mf acc t rest with ⟨s2, m2⟩
        rw [h3, h4] at hcl
        simp only at hcl
        subst hcl
        cases s1 <;> rfl

/-- Filtering matching recoverable packets leaves the f32 load's result
unchanged. -/
theorem decode_f32_filter (stream : List F32Packet) (track_id n_channels : Nat)
    (file_frames : Option Nat) (sample_rate max_bytes : Nat) :
    (decode_f32 (stream.filter fun p =>
        decide (¬ (p.track_id = track_id ∧ p.outcome = F32Outcome.recoverable)))
      track_id n_channels file_frames sample_rate max_bytes).1 =
    (decode_f32 stream track_id n_channels file_frames sample_rate max_bytes).1 := by
  unfold decode_f32
  by_cases hz : n_channels = 0
  · rw [if_pos hz, if_pos hz]
  · rw [if_neg hz, if_neg hz]
    by_cases hff : (file_frames.any fun f => f > max_bytes / (4 * n_channels)) = true
    · rw [if_pos hff, if_pos hff]
    · rw [if_neg hff, if_neg hff]
      have hfl := decodeF32Loop_filter track_id (max_bytes / (4 * n_channels)) file_frames
        max_bytes stream (List.replicate n_channels [])
      rcases h1 : decodeF32Loop track_id (max_bytes / (4 * n_channels)) file_frames
          max_bytes (stream.filter fun p =>
            decide (¬ (p.track_id = track_id ∧ p.outcome = F32Outcome.recoverable)))
          (List.replicate n_channels []) with ⟨s1, k1⟩
      rcases h2 : decodeF32Loop track_id (max_bytes / (4 * n_channels)) file_frames
          max_bytes stream (List.replicate n_channels []) with ⟨s2, k2⟩
      rw [h1, h2] at hfl
      simp only at hfl
      subst hfl
      cases s1 <;> rfl

/-- Filtering matching recoverable packets leaves the resampled packet
loop unchanged. -/
theorem resampledPacketLoop_filter {σ : Type} (R : ResamplerModel σ)
    (track_id max_frames : Nat) (file_frames : Option Nat) (max_bytes fuel : Nat) :
    ∀ (stream : List F32Packet) (st : RState σ),
    resampledPacketLoop R track_id max_frames file_frames max_bytes fuel
      (stream.filter fun p =>
        decide (¬ (p.track_id = track_id ∧ p.outcome = F32Outcome.recoverable))) st =
    resampledPacketLoop R track_id max_frames file_frames max_bytes fuel stream st := by
  intro stream
  induction stream with
  | nil => intro st; rfl
  | cons p rest ih =>
    intro st
    by_cases hrec : p.track_id = track_id ∧ p.outcome = F32Outcome.recoverable
    · rw [List.filter_cons, if_neg (by simp only [decide_eq_true_eq]; exact not_not_intro hrec)]
      rw [show resampledPacketLoop R track_id max_frames file_frames max_bytes fuel
          (p :: rest) st =
          resampledPacketLoop R track_id max_frames file_frames max_bytes fuel rest st from by
        simp [resampledPacketLoop, hrec.1, hrec.2]]
      exact ih st
    · rw [List.filter_cons, if_pos (by simp only [decide_eq_true_eq]; exact hrec)]
      by_cases htid : p.track_id = track_id
      · cases hout : p.outcome with
        | ok planes =>
          simp only [resampledPacketLoop, htid, hout,
            if_neg (show ¬ track_id ≠ track_id by simp)]
          cases hcl : copyLoop R planes (planes.headD []).length fuel 0 st with
          | none => rfl
          | some r =>
            cases r with
            | error e => rfl
            | ok st1 =>
              simp only []
              by_cases hb : file_frames = none ∧
                  (st1.final_buf.headD []).length > max_frames
              · rw [if_pos hb, if_pos hb]
              · rw [if_neg hb, if_neg hb]
                exact ih _
        | recoverable => exact absurd ⟨htid, hout⟩ hrec
        | fatal =>
          simp only [resampledPacketLoop, htid, hout,
            if_neg (show ¬ track_id ≠ track_id by simp)]
      · simp only [resampledPacketLoop, if_pos htid]
        exact ih st

/-- Filtering matching recoverable packets leaves the resampled load's
result unchanged. -/
theorem decode_resampled_filter {σ : Type} (R : ResamplerModel σ) (stream : List F32Packet)
    (track_id psr tsr n_channels : Nat) (file_frames : Option Nat) (max_bytes fuel : Nat) :
    decode_resampled R (stream.filter fun p =>
      decide (¬ (p.track_id = track_id ∧ p.outcome = F32Outcome.recoverable)))
      track_id psr tsr n_channels file_frames max_bytes fuel =
    decode_resampled R stream track_id psr tsr n_channels file_frames max_bytes fuel := by
  unfold decode_resampled
  simp only [resampledPacketLoop_filter]

/-- C5 counterexample: the f32 path has no packet-starvation check — an
empty stream loads successfully as an empty (zero-frame) resource
instead of returning an error. -/
theorem f32_empty_stream_succeeds :
    decode_f32 [] 0 1 none 44100 100 = (some (.ok ⟨[[]], 44100⟩), 0) ∧
    DecodedAudioF32.frames ⟨[[]], 44100⟩ = 0 := by
  constructor
  · decide
  · rfl

/-- C5 amended: only the native-bitdepth path turns total packet
starvation (zero successful decodes) into an error; a load whose
selected-track packets all fail recoverably (including the empty
stream) instead returns an empty zero-frame resource on the f32 and
resampled paths.  Recoverable per-packet decode errors never change any
path's outcome: filtering them from the stream leaves the native, f32
and resampled results unchanged, so on a stream with at least one
successfully decoded packet they never cause the load to fail. -/
theorem starvation_error_native_only :
    (∀ (stream : List Packet) (track_id n_channels : Nat) (file_frames : Option Nat)
      (sample_rate max_bytes : Nat), 0 < n_channels →
      (∀ p ∈ stream, p.track_id = track_id → p.outcome.isOk = false) →
      ∃ e, (decode_native_bitdepth stream track_id n_channels file_frames sample_rate
        max_bytes).1 = some (.error e)) ∧
    (∀ (stream : List F32Packet) (track_id n_channels : Nat) (file_frames : Option Nat)
      (sample_rate max_bytes : Nat), 0 < n_channels →
      ¬ (file_frames.any fun f => f > max_bytes / (4 * n_channels)) = true →
      (∀ p ∈ stream, p.track_id = track_id → p.outcome = F32Outcome.recoverable) →
      ∃ a, (decode_f32 stream track_id n_channels file_frames sample_rate max_bytes).1 =
        some (.ok a) ∧ a.frames = 0) ∧
    (∀ {σ : Type} (R : ResamplerModel σ) (stream : List F32Packet)
      (track_id psr tsr n_channels : Nat) (file_frames : Option Nat) (max_bytes fuel : Nat),
      0 < n_channels → 0 < fuel →
      ¬ (file_frames.any fun f => f > max_bytes / (4 * n_channels)) = true →
      (∀ p ∈ stream, p.track_id = track_id → p.outcome = F32Outcome.recoverable) →
      ∃ a, decode_resampled R stream track_id psr tsr n_channels file_frames max_bytes fuel =
        some (.ok a) ∧ a.frames = 0) ∧
    (∀ (stream : List Packet) (track_id n_channels : Nat) (file_frames : Option Nat)
      (sample_rate max_bytes : Nat),
      (decode_native_bitdepth (stream.filter fun p =>
          decide (¬ (p.track_id = track_id ∧ p.outcome = DecodeOutcome.recoverable)))
        track_id n_channels file_frames sample_rate max_bytes).1 =
      (decode_native_bitdepth stream track_id n_channels file_frames sample_rate
        max_bytes).1) ∧
    (∀ (stream : List F32Packet) (track_id n_channels : Nat) (file_frames : Option Nat)
      (sample_rate max_bytes : Nat),
      (decode_f32 (stream.filter fun p =>
          decide (¬ (p.track_id = track_id ∧ p.outcome = F32Outcome.recoverable)))
        track_id n_channels file_frames sample_rate max_bytes).1 =
      (decode_f32 stream track_id n_channels file_frames sample_rate max_bytes).1) ∧
    (∀ {σ : Type} (R : ResamplerModel σ) (stream : List F32Packet)
      (track_id psr tsr n_channels : Nat) (file_frames : Option Nat) (max_bytes fuel : Nat),
      decode_resampled R (stream.filter fun p =>
        decide (¬ (p.track_id = track_id ∧ p.outcome = F32Outcome.recoverable)))
        track_id psr tsr n_channels file_frames max_bytes fuel =
      decode_resampled R stream track_id psr tsr n_channels file_frames max_bytes fuel) := by
  refine ⟨?_, ?_, ?_, ?_, ?_, ?_⟩
  · intro stream track_id n_channels file_frames sample_rate max_bytes hn hno
    rcases firstPacketLoop_no_ok track_id n_channels file_frames max_bytes stream hno with
      hfp | hfp
    · rcases hp : firstPacketLoop track_id n_channels file_frames max_bytes stream with ⟨r1, r2⟩
      rw [hp] at hfp
      simp only at hfp
      subst hfp
      exact ⟨.unexpectedErrorWhileDecoding, by
        unfold decode_native_bitdepth
        rw [if_neg (by omega), hp]⟩
    · rcases hp : firstPacketLoop track_id n_channels file_frames max_bytes stream with ⟨r1, r2⟩
      rw [hp] at hfp
      simp only at hfp
      subst hfp
      exact ⟨.errorWhileDecoding, by
        unfold decode_native_bitdepth
        rw [if_neg (by omega), hp]⟩
  · intro stream track_id n_channels file_frames sample_rate max_bytes hn hup hall
    refine ⟨⟨List.replicate n_channels [], sample_rate⟩, ?_, ?_⟩
    · unfold decode_f32
      rw [if_neg (by omega), if_neg hup]
      rcases hl : decodeF32Loop track_id (max_bytes / (4 * n_channels)) file_frames max_bytes
          stream (List.replicate n_channels []) with ⟨r1, k1⟩
      have hre := decodeF32Loop_all_recoverable track_id (max_bytes / (4 * n_channels))
        file_frames max_bytes stream (List.replicate n_channels []) hall
      rw [hl] at hre
      simp only at hre
      subst hre
      simp only []
      rw [new_f32_replicate_nil n_channels sample_rate hn]
      rfl
    · obtain ⟨m, rfl⟩ : ∃ m, n_channels = m + 1 := ⟨n_channels - 1, by omega⟩
      simp [DecodedAudioF32.frames, List.replicate_succ]
  · intro σ R stream track_id psr tsr n_channels file_frames max_bytes fuel hn hfuel hup hall
    obtain ⟨fl, rfl⟩ : ∃ fl, fuel = fl + 1 := ⟨fuel - 1, by omega⟩
    refine ⟨⟨List.replicate n_channels [], tsr⟩, ?_, ?_⟩
    · unfold decode_resampled
      rw [if_neg (by omega), if_neg hup]
      simp only []
      rw [resampledPacketLoop_all_recoverable R track_id (max_bytes / (4 * n_channels))
        file_frames max_bytes (fl + 1) stream _ hall]
      simp [drainLoop, natCeilDiv_zero, resizeTo,
        new_f32_replicate_nil n_channels tsr hn]
    · obtain ⟨m, rfl⟩ : ∃ m, n_channels = m + 1 := ⟨n_channels - 1, by omega⟩
      simp [DecodedAudioF32.frames, List.replicate_succ]
  · intro stream track_id n_channels file_frames sample_rate max_bytes
    exact decode_native_filter stream track_id n_channels file_frames sample_rate max_bytes
  · intro stream track_id n_channels file_frames sample_rate max_bytes
    exact decode_f32_filter stream track_id n_channels file_frames sample_rate max_bytes
  · intro σ R stream track_id psr tsr n_channels file_frames max_bytes fuel
    exact decode_resampled_filter R stream track_id psr tsr n_channels file_frames
      max_bytes fuel

/-- C5 witness: the native starvation clause at a single-recoverable
stream; the f32 and resampled empty-resource clauses at the same
stream; the three transparency clauses at streams holding one
recoverable and one good packet. -/
theorem starvation_error_witness :
    (∃ e, (decode_native_bitdepth [⟨0, .recoverable⟩] 0 1 none 44100 100).1 =
      some (.error e)) ∧
    (∃ a, (decode_f32 [⟨0, .recoverable⟩] 0 1 none 44100 100).1 = some (.ok a) ∧
      a.frames = 0) ∧
    (∃ a, decode_resampled ⟨(), 2, 2, 0, fun _ => 2, fun s inp => some (s, 2, inp)⟩
        [⟨0, .recoverable⟩] 0 44100 48000 1 none 100 1 = some (.ok a) ∧ a.frames = 0) ∧
    ((decode_native_bitdepth
        (([⟨0, .recoverable⟩, ⟨0, .ok (.U8 [[1]])⟩] : List Packet).filter fun p =>
          decide (¬ (p.track_id = 0 ∧ p.outcome = DecodeOutcome.recoverable)))
        0 1 none 44100 100).1 =
      (decode_native_bitdepth [⟨0, .recoverable⟩, ⟨0, .ok (.U8 [[1]])⟩] 0 1 none
        44100 100).1) ∧
    ((decode_f32 (([⟨0, .recoverable⟩, ⟨0, .ok [[1]]⟩] : List F32Packet).filter fun p =>
        decide (¬ (p.track_id = 0 ∧ p.outcome = F32Outcome.recoverable)))
      0 1 none 44100 100).1 =
    (decode_f32 [⟨0, .recoverable⟩, ⟨0, .ok [[1]]⟩] 0 1 none 44100 100).1) ∧
    (decode_resampled ⟨(), 2, 2, 0, fun _ => 2, fun s inp => some (s, 2, inp)⟩
        (([⟨0, .recoverable⟩, ⟨0, .ok [[1, 2]]⟩] : List F32Packet).filter fun p =>
          decide (¬ (p.track_id = 0 ∧ p.outcome = F32Outcome.recoverable)))
        0 1 2 1 none 1000 8 =
      decode_resampled ⟨(), 2, 2, 0, fun _ => 2, fun s inp => some (s, 2, inp)⟩
        [⟨0, .recoverable⟩, ⟨0, .ok [[1, 2]]⟩] 0 1 2 1 none 1000 8) :=
  ⟨starvation_error_native_only.1 [⟨0, .recoverable⟩] 0 1 none 44100 100 (by decide)
      (by decide),
    starvation_error_native_only.2.1 [⟨0, .recoverable⟩] 0 1 none 44100 100 (by decide)
      (by decide) (by decide),
    starvation_error_native_only.2.2.1
      ⟨(), 2, 2, 0, fun _ => 2, fun s inp => some (s, 2, inp)⟩
      [⟨0, .recoverable⟩] 0 44100 48000 1 none 100 1 (by decide) (by decide) (by decide)
      (by decide),
    starvation_error_native_only.2.2.2.1 [⟨0, .recoverable⟩, ⟨0, .ok (.U8 [[1]])⟩] 0 1 none
      44100 100,
    starvation_error_native_only.2.2.2.2.1 [⟨0, .recoverable⟩, ⟨0, .ok [[1]]⟩] 0 1 none
      44100 100,
    starvation_error_native_only.2.2.2.2.2
      ⟨(), 2, 2, 0, fun _ => 2, fun s inp => some (s, 2, inp)⟩
      [⟨0, .recoverable⟩, ⟨0, .ok [[1, 2]]⟩] 0 1 2 1 none 1000 8⟩

/-! ## Claim C1 -/

/-- `Vec::resize` forces the exact target length. -/
theorem resizeTo_length (ch : List ℚ) (n : Nat) : (resizeTo ch n).length = n := by
  simp [resizeTo]
  omega

/-- Constructing an f32 resource records the data and sample rate. -/
theorem new_f32_props {d : List (List ℚ)} {sr : Nat} {a : DecodedAudioF32}
    (h : DecodedAudioF32.new d sr = some a) : a.data = d ∧ a.sample_rate = sr := by
  simp only [DecodedAudioF32.new, Option.map_eq_some'] at h
  obtain ⟨p, -, rfl⟩ := h
  exact ⟨rfl, rfl⟩

/-- One engine invocation never changes the running input-frame
total. -/
theorem resampleStep_total_in {σ : Type} (R : ResamplerModel σ) {st st' : RState σ}
    (h : resampleStep R st = .ok st') : st'.total_in = st.total_in := by
  unfold resampleStep at h
  split at h
  · exact Except.noConfusion h
  · split at h <;> · obtain rfl := Except.ok.inj h; rfl

/-- The staging copy loop never changes the running input-frame
total. -/
theorem copyLoop_total_in {σ : Type} (R : ResamplerModel σ) (planes : List (List ℚ))
    (decoded_frames : Nat) :
    ∀ (fuel total_copied : Nat) (st st' : RState σ),
    copyLoop R planes decoded_frames fuel total_copied st = some (.ok st') →
    st'.total_in = st.total_in := by
  intro fuel
  induction fuel with
  | zero => intro tc st st' h; simp [copyLoop] at h
  | succ fuel ih =>
    intro tc st st' h
    simp only [copyLoop] at h
    split at h
    · split at h
      · split at h
        · simp at h
        · rename_i st2 hstep
          have e1 := ih _ _ _ h
          have e2 := resampleStep_total_in R hstep
          rw [e1, e2]
      · have e1 := ih _ _ _ h
        rw [e1]
    · obtain rfl := Except.ok.inj (Option.some.inj h)
      rfl

/-- The packet loop accumulates exactly the stream's decoded frames into
`total_in_frames`. -/
theorem resampledPacketLoop_total_in {σ : Type} (R : ResamplerModel σ)
    (track_id max_frames : Nat) (file_frames : Option Nat) (max_bytes fuel : Nat) :
    ∀ (stream : List F32Packet) (st st' : RState σ),
    resampledPacketLoop R track_id max_frames file_frames max_bytes fuel stream st =
      some (.ok st') →
    st'.total_in = st.total_in + streamInFrames track_id stream := by
  intro stream
  induction stream with
  | nil =>
    intro st st' h
    simp only [resampledPacketLoop] at h
    obtain rfl := Except.ok.inj (Option.some.inj h)
    simp [streamInFrames]
  | cons p rest ih =>
    intro st st' h
    by_cases htid : p.track_id = track_id
    · cases hout : p.outcome with
      | ok planes =>
        simp only [resampledPacketLoop, htid, hout,
          if_neg (show ¬ track_id ≠ track_id by simp)] at h
        cases hcl : copyLoop R planes (planes.headD []).length fuel 0 st with
        | none => rw [hcl] at h; simp at h
        | some r =>
          rw [hcl] at h
          cases r with
          | error e => simp at h
          | ok st1 =>
            simp only [] at h
            split at h
            · simp at h
            · have hrec := ih _ _ h
              have hcp := copyLoop_total_in R planes _ fuel 0 st st1 hcl
              have hns : streamInFrames track_id (p :: rest) =
                  (planes.headD []).length + streamInFrames track_id rest := by
                simp [streamInFrames, htid, hout]
              rw [hrec, hns]
              simp only [RState.total_in]
              omega
      | recoverable =>
        simp only [resampledPacketLoop, htid, hout,
          if_neg (show ¬ track_id ≠ track_id by simp)] at h
        rw [ih _ _ h]
        simp [streamInFrames, htid, hout]
      | fatal =>
        simp only [resampledPacketLoop, htid, hout,
          if_neg (show ¬ track_id ≠ track_id by simp)] at h
        simp at h
    · simp only [resampledPacketLoop, if_pos htid] at h
      rw [ih _ _ h]
      simp [streamInFrames, htid]

/-- For a positive divisor, `natCeilDiv` is the exact rational ceiling. -/
theorem natCeilDiv_cast (a b : Nat) (hb : 0 < b) :
    (natCeilDiv a b : ℤ) = ⌈(a : ℚ) / (b : ℚ)⌉ := by
  have hbq : (0 : ℚ) < (b : ℚ) := by exact_mod_cast hb
  rw [eq_comm, Int.ceil_eq_iff]
  have h1 : natCeilDiv a b * b ≤ a + b - 1 := Nat.div_mul_le_self _ _
  have h2 : a + b - 1 < (natCeilDiv a b + 1) * b := by
    have := (Nat.div_lt_iff_lt_mul hb).1 (Nat.lt_succ_self ((a + b - 1) / b))
    simpa [natCeilDiv] using this
  rw [Nat.add_mul, one_mul] at h2
  constructor
  · rw [lt_div_iff₀ hbq]
    have key : natCeilDiv a b * b < a + b := by omega
    have keyQ : ((natCeilDiv a b : ℕ) : ℚ) * b < (a : ℚ) + b := by exact_mod_cast key
    push_cast
    nlinarith [keyQ]
  · rw [div_le_iff₀ hbq]
    have key : a ≤ natCeilDiv a b * b := by omega
    exact_mod_cast key

/-- C1: every successfully completed resampled load yields channels of
length exactly `ceil(total_input_frames * target_rate / source_rate)`,
where `total_input_frames` counts the frames decoded from the stream —
independent of the engine's declared `output_delay` and of how many
flush/drain invocations were needed. -/
theorem decode_resampled_frame_count {σ : Type} (R : ResamplerModel σ)
    (stream : List F32Packet)
    (track_id pcm_sample_rate target_sample_rate n_channels : Nat)
    (file_frames : Option Nat) (max_bytes fuel : Nat) (audio : DecodedAudioF32)
    (hsrc : 0 < pcm_sample_rate)
    (h : decode_resampled R stream track_id pcm_sample_rate target_sample_rate n_channels
      file_frames max_bytes fuel = some (.ok audio)) :
    audio.sample_rate = target_sample_rate ∧
    ∀ ch ∈ audio.data, (ch.length : ℤ) =
      ⌈((streamInFrames track_id stream * target_sample_rate : ℕ) : ℚ) /
        (pcm_sample_rate : ℚ)⌉ := by
  unfold decode_resampled at h
  split at h
  · simp at h
  · simp only [] at h
    split at h
    · simp at h
    · split at h
      · simp at h
      · simp at h
      · rename_i st hloop
        split at h
        · simp at h
        · rename_i st1 hflush
          split at h
          · simp at h
          · simp at h
          · rename_i st2 hdrain
            simp only [Option.map_eq_some', Except.ok.injEq] at h
            obtain ⟨b, hb, rfl⟩ := h
            obtain ⟨hdata, hsr⟩ := new_f32_props hb
            have htot : st.total_in = streamInFrames track_id stream := by
              have := resampledPacketLoop_total_in R track_id
                (max_bytes / (4 * n_channels)) file_frames max_bytes fuel stream _ st hloop
              simpa using this
            refine ⟨hsr, ?_⟩
            intro ch hch
            rw [hdata] at hch
            simp only [List.mem_map] at hch
            obtain ⟨ch0, -, rfl⟩ := hch
            rw [resizeTo_length, htot]
            exact natCeilDiv_cast _ _ hsrc

/-- C1 witness: an identity 1:1 engine over a one-packet two-frame
stream completes with exactly `ceil(2 * 1 / 1) = 2` frames. -/
theorem decode_resampled_frame_count_witness :
    (⟨[[1, 2]], 1⟩ : DecodedAudioF32).sample_rate = 1 ∧
    ∀ ch ∈ (⟨[[1, 2]], 1⟩ : DecodedAudioF32).data, (ch.length : ℤ) =
      ⌈((streamInFrames 0 [⟨0, .ok [[1, 2]]⟩] * 1 : ℕ) : ℚ) / ((1 : ℕ) : ℚ)⌉ :=
  decode_resampled_frame_count
    ⟨(), 2, 2, 0, fun _ => 2, fun s inp => some (s, 2, inp)⟩
    [⟨0, .ok [[1, 2]]⟩] 0 1 1 1 none 1000 8 ⟨[[1, 2]], 1⟩ (by decide) (by decide)

end PcmLoader
